import Mathlib

/-!
# Verification of the ClawSec advisory-guardian core

A shallow embedding of the security-critical subsystem of the
`clawsec-suite` skill: semantic version matching (`lib/version.mjs`),
affected-specifier parsing and feed validation (`lib/feed.mjs`), the
remote/local feed loaders with their signature and checksum verification
stages, state normalization and persistence (`lib/state.ts`), the match
engine (`lib/matching.ts`), the hook handler's orchestration
(`handler.ts`) and the guard-gate CLI (`scripts/guarded_skill_install.mjs`).

External primitives (node:crypto signatures and hashing, `JSON.parse`,
`Date.parse`, the network and the filesystem) are modelled as explicit
function parameters; everything else is translated directly from the
JavaScript/TypeScript source.  JavaScript strings are modelled as Lean
`String`s, with the handful of string methods the source uses
re-implemented over `List Char` so that every definition evaluates by
kernel reduction.
-/

/-! ## JavaScript string primitives -/

/-- The whitespace characters relevant to `String.prototype.trim` and the
regex class `\s` (ASCII subset; the source only ever trims ASCII data). -/
def jsWhitespaceChar (c : Char) : Bool :=
  c == ' ' || c == '\t' || c == '\n' || c == '\r' || c == '\x0b' || c == '\x0c'

def trimChars (l : List Char) : List Char :=
  ((l.dropWhile jsWhitespaceChar).reverse.dropWhile jsWhitespaceChar).reverse

/-- Models `String.prototype.trim`. -/
def jsTrim (s : String) : String := ⟨trimChars s.data⟩

/-- Models `String.prototype.toLowerCase` (ASCII). -/
def jsToLower (s : String) : String := ⟨s.data.map Char.toLower⟩

/-- Models `String.prototype.toUpperCase` (ASCII). -/
def jsToUpper (s : String) : String := ⟨s.data.map Char.toUpper⟩

/-- `isPre p l` is true when `p` is a prefix of `l` (models `startsWith`). -/
def isPre : List Char → List Char → Bool
  | [], _ => true
  | _ :: _, [] => false
  | c :: cs, d :: ds => c == d && isPre cs ds

/-- Models `String.prototype.endsWith`. -/
def isSuf (p l : List Char) : Bool := isPre p.reverse l.reverse

/-- Index of the last occurrence of `c` (models `String.prototype.lastIndexOf`
for a one-character needle; `none` models `-1`). -/
def lastIdxOf (c : Char) : List Char → Option Nat
  | [] => none
  | d :: rest =>
    match lastIdxOf c rest with
    | some i => some (i + 1)
    | none => if d == c then some 0 else none

/-- Models `String.prototype.split` with a one-character separator. -/
def splitOnChar (c : Char) : List Char → List (List Char)
  | [] => [[]]
  | d :: rest =>
    let r := splitOnChar c rest
    if d == c then [] :: r else (d :: r.headD []) :: r.tail

/-- Models `value.replace(/^v/i, "")`. -/
def stripLeadingV (l : List Char) : List Char :=
  match l with
  | [] => []
  | c :: rest => if c == 'v' || c == 'V' then rest else l

def digitsToNat (l : List Char) : Nat :=
  l.foldl (fun acc c => acc * 10 + (c.toNat - '0'.toNat)) 0

/-- The integer named by the longest digit run at the head of `l`, `none`
when there is none. -/
def digitsAtHead (l : List Char) : Option Nat :=
  let ds := l.takeWhile Char.isDigit
  if ds.isEmpty then none else some (digitsToNat ds)

/-- Models `Number.parseInt(s, 10)`: optional leading whitespace, optional
sign, then the longest digit run; `none` models `NaN`. -/
def jsParseInt (s : String) : Option Int :=
  let l := s.data.dropWhile jsWhitespaceChar
  match l with
  | '-' :: rest => (digitsAtHead rest).map (fun n => -(n : Int))
  | '+' :: rest => (digitsAtHead rest).map (fun n => (n : Int))
  | _ => (digitsAtHead l).map (fun n => (n : Int))

/-! ## `lib/version.mjs` -/

/-- The `cleaned` intermediate of `parseSemver` (version.mjs:6-9): trim,
strip a leading `v`, drop everything from the first `-`. -/
def semverCleaned (version : String) : List Char :=
  (stripLeadingV (trimChars version.data)).takeWhile (· != '-')

/-- The `parts` intermediate of `parseSemver` (version.mjs:10). -/
def semverParts (version : String) : List (List Char) :=
  splitOnChar '.' (semverCleaned version)

/-- The `normalized` intermediate of `parseSemver` (version.mjs:13): the
first three components through `Number.parseInt`. -/
def semverNormalized (version : String) : List (Option Int) :=
  ((semverParts version).take 3).map (fun p => jsParseInt ⟨p⟩)

/-- `normalized` after the padding loop of version.mjs:14-16. -/
def semverPadded (version : String) : List (Option Int) :=
  semverNormalized version ++
    List.replicate (3 - (semverNormalized version).length) (some (0 : Int))

/-- Translated from `parseSemver` (version.mjs:5-22): trim, strip a leading
`v`, drop everything from the first `-`, split on `.`, `parseInt` the first
three components, pad missing components with `0`; `none` when any kept
component is `NaN`. -/
def parseSemver (version : String) : Option (Int × Int × Int) :=
  if (semverParts version).isEmpty then none
  else if (semverPadded version).any (·.isNone) then none
  else
    match semverPadded version with
    | [a, b, c] => some (a.getD 0, b.getD 0, c.getD 0)
    | _ => none

/-- Translated from `compareSemver` (version.mjs:29-39); `none` models the
`null` returned when either side is unparseable. -/
def compareSemver (left right : String) : Option Int :=
  match parseSemver left, parseSemver right with
  | some a, some b =>
    some (if a.1 > b.1 then 1 else if a.1 < b.1 then -1
      else if a.2.1 > b.2.1 then 1 else if a.2.1 < b.2.1 then -1
      else if a.2.2 > b.2.2 then 1 else if a.2.2 < b.2.2 then -1 else 0)
  | _, _ => none

/-- The list of suffixes of `s` reachable by deleting a newline-free prefix
(the strings a leading `.*` may leave behind, since regex `.` does not match
a newline). -/
def globStarTails : List Char → List (List Char)
  | [] => [[]]
  | c :: rest => (c :: rest) :: (if c == '\n' then [] else globStarTails rest)

/-- Models the anchored regex `versionMatches` builds from a spec containing
`*` (version.mjs:61-64): `escapeRegex` makes every character of the spec
literal and then each `\*` becomes `.*`, so for backslash-free specs the
test is glob matching with `*` wildcards that do not cross newlines. -/
def globMatch : List Char → List Char → Bool
  | [], s => s.isEmpty
  | '*' :: pr, s => (globStarTails s).any (fun t => globMatch pr t)
  | _ :: _, [] => false
  | c :: pr, d :: sr => c == d && globMatch pr sr

/-- The comparator alternation of `/^(>=|<=|>|<|=)\s*(.+)$/`, tried in the
regex's order; a two-character operator only matches when at least one
character is left for `(.+)` (regex backtracking otherwise retries the
one-character operator).  The second component is the captured target after
`.trim()`. -/
def comparatorOps : List String := [">=", "<=", ">", "<", "="]

def firstComparatorOp : List String → String → Option (String × String)
  | [], _ => none
  | op :: ops, spec =>
    if isPre op.data spec.data && op.data.length < spec.data.length then
      some (op, jsTrim ⟨spec.data.drop op.data.length⟩)
    else firstComparatorOp ops spec

def comparatorSplit (spec : String) : Option (String × String) :=
  firstComparatorOp comparatorOps spec

/-- `!version` for the `string | null` parameter of `versionMatches`. -/
def optFalsy (v : Option String) : Bool :=
  match v with
  | none => true
  | some s => s == ""

/-- Translated from `versionMatches` (version.mjs:54-100). -/
def versionMatches (version : Option String) (rawSpec : String) : Bool :=
  let spec := jsTrim rawSpec
  if spec == "" || spec == "*" || jsToLower spec == "any" then true
  else if optFalsy version || jsToLower (jsTrim (version.getD "")) == "unknown" then false
  else
    let normalizedVersion : String := ⟨stripLeadingV (trimChars (version.getD "").data)⟩
    if spec.data.contains '*' then
      globMatch spec.data normalizedVersion.data
    else
      match comparatorSplit spec with
      | some (operator, targetVersion) =>
        match compareSemver normalizedVersion targetVersion with
        | none => false
        | some compared =>
          if operator == ">=" then decide (compared ≥ 0)
          else if operator == "<=" then decide (compared ≤ 0)
          else if operator == ">" then decide (compared > 0)
          else if operator == "<" then decide (compared < 0)
          else compared == 0
      | none =>
        if isPre ['^'] spec.data then
          let tail : String := ⟨spec.data.drop 1⟩
          match parseSemver tail, parseSemver normalizedVersion with
          | some target, some current =>
            if current.1 != target.1 then false
            else if target.1 == 0 && current.2.1 != target.2.1 then false
            else compareSemver normalizedVersion tail != some (-1)
          | _, _ => false
        else if isPre ['~'] spec.data then
          let tail : String := ⟨spec.data.drop 1⟩
          match parseSemver tail, parseSemver normalizedVersion with
          | some target, some current =>
            current.1 == target.1 && current.2.1 == target.2.1 &&
              compareSemver normalizedVersion tail != some (-1)
          | _, _ => false
        else
          normalizedVersion == spec || normalizedVersion == ⟨stripLeadingV spec.data⟩

/-! ## `lib/utils.mjs` -/

/-- Translated from `normalizeSkillName` (utils.mjs:13-17). -/
def normalizeSkillName (value : String) : String := jsToLower (jsTrim value)

/-- One step of `uniqueStrings`: append an element not seen before. -/
def uniqueStep (acc : List String) (v : String) : List String :=
  if acc.contains v then acc else acc ++ [v]

/-- Translated from `uniqueStrings` (utils.mjs:23-25): `Array.from(new Set)`
keeps the first occurrence of each element, in order. -/
def uniqueStrings (values : List String) : List String :=
  values.foldl uniqueStep []

/-! ## JSON values

`JSON.parse` output is modelled by the inductive `Jx`; the parser itself is
an external primitive (a field of `CryptoEnv` below). -/

inductive Jx where
  | null : Jx
  | bool : Bool → Jx
  | num : Int → Jx
  | str : String → Jx
  | arr : List Jx → Jx
  | obj : List (String × Jx) → Jx

/-- Property lookup on an assoc list (JS object keys are unique; the first
binding wins). -/
def objGet {α : Type} : List (String × α) → String → Option α
  | [], _ => none
  | (k, v) :: rest, key => if k == key then some v else objGet rest key

/-- Property assignment on an assoc list: replace in place or append
(models `obj[key] = v`). -/
def objSet {α : Type} : List (String × α) → String → α → List (String × α)
  | [], key, v => [(key, v)]
  | (k, w) :: rest, key, v =>
    if k == key then (key, v) :: rest else (k, w) :: objSet rest key v

/-- Translated from `isObject` (utils.mjs:5-7): `typeof value === "object"`
and not `null`; JS arrays are objects. -/
def jsIsObject : Jx → Bool
  | .obj _ => true
  | .arr _ => true
  | _ => false

/-- Property access `j[k]` for a string key; `none` models `undefined`
(arrays have no such string-named own properties). -/
def jget : Jx → String → Option Jx
  | .obj fields, k => objGet fields k
  | _, _ => none

/-- Models `Object.entries`: an object's pairs, or an array's elements keyed
by their decimal index. -/
def jEntries : Jx → List (String × Jx)
  | .obj fields => fields
  | .arr items => items.enum.map (fun p => (toString p.1, p.2))
  | _ => []

/-! ## `lib/feed.mjs` — pure parts -/

/-- Translated from `parseAffectedSpecifier` (feed.mjs:102-115). -/
def parseAffectedSpecifier (rawSpecifier : String) : Option (String × String) :=
  let specifier := jsTrim rawSpecifier
  if specifier == "" then none
  else
    match lastIdxOf '@' specifier.data with
    | none => some (specifier, "*")
    | some atIndex =>
      if atIndex == 0 then some (specifier, "*")
      else some (⟨specifier.data.take atIndex⟩, ⟨specifier.data.drop (atIndex + 1)⟩)

/-- The advisory-shape checks of the loop in `isValidFeedPayload`
(feed.mjs:126-132). -/
def validAdvisoryJx (advisory : Jx) : Bool :=
  jsIsObject advisory &&
  (match jget advisory "id" with
    | some (.str s) => jsTrim s != ""
    | _ => false) &&
  (match jget advisory "severity" with
    | some (.str s) => jsTrim s != ""
    | _ => false) &&
  (match jget advisory "affected" with
    | some (.arr entries) =>
      entries.all (fun e =>
        match e with
        | .str s => jsTrim s != ""
        | _ => false)
    | _ => false)

/-- Translated from `isValidFeedPayload` (feed.mjs:121-135). -/
def isValidFeedPayload (raw : Jx) : Bool :=
  jsIsObject raw &&
  (match jget raw "version" with
    | some (.str v) => jsTrim v != ""
    | _ => false) &&
  (match jget raw "advisories" with
    | some (.arr advisories) => advisories.all validAdvisoryJx
    | _ => false)

/-- A lowercase 64-character hex string (the regex `/^[a-f0-9]{64}$/`). -/
def isHex64 (l : List Char) : Bool :=
  l.length == 64 && l.all (fun c => c.isDigit || (c ≥ 'a' && c ≤ 'f'))

/-- Translated from `extractSha256Value` (feed.mjs:200-212). -/
def extractSha256Value (value : Jx) : Option String :=
  match value with
  | .str s =>
    let normalized := jsToLower (jsTrim s)
    if isHex64 normalized.data then some normalized else none
  | j =>
    if jsIsObject j then
      match jget j "sha256" with
      | some (.str s) =>
        let normalized := jsToLower (jsTrim s)
        if isHex64 normalized.data then some normalized else none
      | _ => none
    else none

/-! ## External primitives -/

/-- The external primitives the feed loaders use: `verifySignedPayload`'s
Ed25519 check over node:crypto, `sha256Hex`, and `JSON.parse` (where `none`
models a thrown `SyntaxError`). -/
structure CryptoEnv where
  verifySig : String → String → String → Bool
  sha256 : String → String
  jsonParse : String → Option Jx

structure ChecksumsManifest where
  schemaVersion : String
  algorithm : String
  files : List (String × String)
deriving DecidableEq

/-- The digest-collection loop of `parseChecksumsManifest`
(feed.mjs:255-263): keys with blank names are skipped, an entry without a
valid sha256 digest is a hard error. -/
def collectDigestEntries : List (String × Jx) → List (String × String) →
    Except String (List (String × String))
  | [], acc => .ok acc
  | (key, value) :: rest, acc =>
    if jsTrim key == "" then collectDigestEntries rest acc
    else
      match extractSha256Value value with
      | none => .error ("Invalid checksum digest entry for " ++ key)
      | some digest => collectDigestEntries rest (objSet acc key digest)

/-- Translated from `parseChecksumsManifest` (feed.mjs:218-274);
`Except.error` models a thrown `Error`. -/
def parseChecksumsManifest (env : CryptoEnv) (manifestRaw : String) :
    Except String ChecksumsManifest :=
  match env.jsonParse manifestRaw with
  | none => .error "Checksum manifest is not valid JSON"
  | some parsed =>
    if ¬ jsIsObject parsed then .error "Checksum manifest must be an object"
    else
      let algorithmRaw :=
        match jget parsed "algorithm" with
        | some (.str s) => jsToLower (jsTrim s)
        | _ => "sha256"
      if algorithmRaw != "sha256" then
        .error ("Unsupported checksum manifest algorithm: " ++ algorithmRaw)
      else
        let schemaVersion :=
          match jget parsed "schema_version" with
          | some (.str s) => jsTrim s
          | _ =>
            match jget parsed "version" with
            | some (.str s) => jsTrim s
            | _ =>
              match jget parsed "generated_at" with
              | some (.str s) => jsTrim s
              | _ => "1"
        if schemaVersion == "" then .error "Checksum manifest missing schema_version"
        else
          match jget parsed "files" with
          | none => .error "Checksum manifest missing files object"
          | some filesRaw =>
            if ¬ jsIsObject filesRaw then .error "Checksum manifest missing files object"
            else
              match collectDigestEntries (jEntries filesRaw) [] with
              | .error msg => .error msg
              | .ok files =>
                if files.isEmpty then .error "Checksum manifest has no usable file digests"
                else .ok ⟨schemaVersion, algorithmRaw, files⟩

/-- Translated from `verifyChecksums` (feed.mjs:280-294): every expected
entry must be listed in the manifest and its recomputed digest must match. -/
def verifyChecksums (sha256Fn : String → String) (files : List (String × String)) :
    List (String × String) → Except String Unit
  | [] => .ok ()
  | (entryName, entryContent) :: rest =>
    if entryName == "" then verifyChecksums sha256Fn files rest
    else
      match objGet files entryName with
      | none => .error ("Checksum manifest missing required entry: " ++ entryName)
      | some expectedDigest =>
        if expectedDigest == "" then
          .error ("Checksum manifest missing required entry: " ++ entryName)
        else if sha256Fn entryContent != expectedDigest then
          .error ("Checksum mismatch for " ++ entryName)
        else verifyChecksums sha256Fn files rest

/-! ## URL and path model -/

/-- Index of the first occurrence of `pat` as a substring. -/
def findSubstrIdx (pat : List Char) : List Char → Option Nat
  | [] => if pat.isEmpty then some 0 else none
  | c :: rest =>
    if isPre pat (c :: rest) then some 0
    else (findSubstrIdx pat rest).map (· + 1)

structure UrlParts where
  protocol : String
  authority : String
  hostname : String
  pathname : String

def validSchemeChars (l : List Char) : Bool :=
  match l with
  | [] => false
  | c :: rest => c.isAlpha && rest.all (fun d => d.isAlphanum || d == '+' || d == '-' || d == '.')

/-- Models `new URL(url)` for absolute URLs of the shape
`scheme://[userinfo@]host[:port][/path][?query][#fragment]` — the shapes the
feed loader handles; `none` models the constructor throwing. -/
def parseUrl (url : String) : Option UrlParts :=
  match findSubstrIdx "://".data url.data with
  | none => none
  | some i =>
    let scheme := url.data.take i
    if ¬ validSchemeChars scheme then none
    else
      let rest := url.data.drop (i + 3)
      let authority := rest.takeWhile (fun c => c != '/' && c != '?' && c != '#')
      let afterAuthority := rest.drop authority.length
      let hostport :=
        match lastIdxOf '@' authority with
        | some j => authority.drop (j + 1)
        | none => authority
      let host := (hostport.takeWhile (· != ':')).map Char.toLower
      if host.isEmpty then none
      else
        let path := afterAuthority.takeWhile (fun c => c != '?' && c != '#')
        let pathname := if path.isEmpty then ['/'] else path
        some ⟨⟨scheme.map Char.toLower⟩ ++ ":", ⟨authority⟩, ⟨host⟩, ⟨pathname⟩⟩

/-- The allow-list of `feed.mjs:11-16`. -/
def ALLOWED_DOMAINS : List String :=
  ["clawsec.prompt.security", "prompt.security", "raw.githubusercontent.com", "github.com"]

/-- Translated from `isAllowedDomain` (feed.mjs:49-68): HTTPS only, hostname
equal to an allowed domain or a subdomain of one. -/
def isAllowedDomain (url : String) : Bool :=
  match parseUrl url with
  | none => false
  | some parsed =>
    if parsed.protocol != "https:" then false
    else
      let hostname := jsToLower parsed.hostname
      ALLOWED_DOMAINS.any (fun allowed =>
        hostname == allowed || isSuf ("." ++ allowed).data hostname.data)

/-- `s.replace(/\/?[^/]*$/, "")`: drop the trailing run of non-slash
characters and at most one `/` before it. -/
def stripLastSeg (l : List Char) : List Char :=
  match l.reverse.dropWhile (· != '/') with
  | '/' :: rest => rest.reverse
  | other => other.reverse

/-- The directory part of a URL pathname, up to and including the last `/`. -/
def dirOfPathname (p : List Char) : List Char :=
  match lastIdxOf '/' p with
  | some i => p.take (i + 1)
  | none => p ++ ['/']

/-- Translated from `defaultChecksumsUrl` (feed.mjs:300-307): resolve
`checksums.json` against the feed URL, or the regex fallback when the feed
URL does not parse. -/
def defaultChecksumsUrl (feedUrl : String) : String :=
  match parseUrl feedUrl with
  | some u => u.protocol ++ "//" ++ u.authority ++ ⟨dirOfPathname u.pathname.data⟩ ++ "checksums.json"
  | none => (⟨stripLastSeg feedUrl.data⟩ : String) ++ "/checksums.json"

/-- Translated from `safeBasename` (feed.mjs:315-333). -/
def safeBasename (urlOrPath : String) (fallback : String) : String :=
  match parseUrl urlOrPath with
  | some u =>
    let pathname := u.pathname.data
    match lastIdxOf '/' pathname with
    | some i => if i + 1 < pathname.length then ⟨pathname.drop (i + 1)⟩ else fallback
    | none => fallback
  | none =>
    let normalized := (jsTrim urlOrPath).data
    match lastIdxOf '/' normalized with
    | some i => if i + 1 < normalized.length then ⟨normalized.drop (i + 1)⟩ else fallback
    | none => fallback

/-- Models `path.dirname` for the POSIX paths the suite uses. -/
def pathDirname (p : String) : String :=
  match lastIdxOf '/' p.data with
  | none => "."
  | some 0 => "/"
  | some i => ⟨p.data.take i⟩

/-- Models `path.basename` for the POSIX paths the suite uses. -/
def pathBasename (p : String) : String :=
  match lastIdxOf '/' p.data with
  | none => p
  | some i => ⟨p.data.drop (i + 1)⟩

/-- Models `path.join` for a directory and a relative file name. -/
def pathJoin (a b : String) : String :=
  if a == "" then b else a ++ "/" ++ b

/-! ## `lib/feed.mjs` — loaders -/

/-- The error taxonomy of the loaders: `policy` models a thrown
`SecurityPolicyError` (feed.mjs:22-27), `err` any other thrown `Error`. -/
inductive FeedError where
  | policy (msg : String)
  | err (msg : String)
deriving DecidableEq

/-- The network as the loaders observe it through one `fetchText` call on an
allowed URL: `none` models every graceful failure (non-ok response, network
error, timeout), `some body` a successful text response. -/
def Net : Type := String → Option String

/-- Truthiness of `payloadRaw` and friends (`null` and `""` are falsy). -/
def strTruthy (v : Option String) : Bool :=
  match v with
  | some s => s != ""
  | none => false

/-- Translated from `fetchText` (feed.mjs:340-362) together with the
`secureFetch` domain gate (feed.mjs:77-96): a disallowed URL throws a
`SecurityPolicyError`, which `fetchText` re-throws; every other failure is
caught and returns `null`. -/
def fetchText (net : Net) (targetUrl : String) : Except FeedError (Option String) :=
  if isAllowedDomain targetUrl then .ok (net targetUrl)
  else .error (.policy ("Security policy violation: URL domain not allowed. Blocked: " ++ targetUrl))

/-- Exception-propagating sequencing (the JS `await`/`throw` flow):
run `x`; a thrown error propagates, otherwise continue with `k`. -/
def exBind {e a b : Type} (x : Except e a) (k : a → Except e b) : Except e b :=
  match x with
  | .error msg => .error msg
  | .ok v => k v

structure RemoteOpts where
  signatureUrl : Option String := none
  checksumsUrl : Option String := none
  checksumsSignatureUrl : Option String := none
  publicKeyPem : Option String := none
  checksumsPublicKeyPem : Option String := none
  allowUnsigned : Bool := false
  verifyChecksumManifest : Bool := true
  checksumFeedEntry : Option String := none
  checksumSignatureEntry : Option String := none

/-- The signature/checksum stage of `loadRemoteFeed` (feed.mjs:460-493):
`.ok true` means verification passed (or was skipped), `.ok false` models a
`return null`, `.error` a thrown error. -/
def remoteVerifyStage (env : CryptoEnv) (net : Net) (payloadRaw : String)
    (signatureUrl checksumsUrl checksumsSignatureUrl publicKeyPem checksumsPublicKeyPem : String)
    (allowUnsigned verifyChecksumManifest : Bool)
    (checksumFeedEntry checksumSignatureEntry : String) : Except FeedError Bool :=
  if allowUnsigned then .ok true
  else
    match fetchText net signatureUrl with
    | .error e => .error e
    | .ok signatureRawOpt =>
      if ¬ strTruthy signatureRawOpt then .ok false
      else
        let signatureRaw := signatureRawOpt.getD ""
        if ¬ env.verifySig payloadRaw signatureRaw publicKeyPem then .ok false
        else if verifyChecksumManifest then
          match fetchText net checksumsUrl with
          | .error e => .error e
          | .ok checksumsRawOpt =>
            match fetchText net checksumsSignatureUrl with
            | .error e => .error e
            | .ok checksumsSignatureRawOpt =>
              if strTruthy checksumsRawOpt && strTruthy checksumsSignatureRawOpt then
                let checksumsRaw := checksumsRawOpt.getD ""
                let checksumsSignatureRaw := checksumsSignatureRawOpt.getD ""
                if ¬ env.verifySig checksumsRaw checksumsSignatureRaw checksumsPublicKeyPem then
                  .ok false
                else
                  match parseChecksumsManifest env checksumsRaw with
                  | .error msg => .error (.err msg)
                  | .ok checksumsManifest =>
                    match verifyChecksums env.sha256 checksumsManifest.files
                        (objSet (objSet [] checksumFeedEntry payloadRaw)
                          checksumSignatureEntry signatureRaw) with
                    | .error msg => .error (.err msg)
                    | .ok _ => .ok true
              else .ok true
        else .ok true

/-- The final `JSON.parse` + shape validation of `loadRemoteFeed`
(feed.mjs:495-501): invalid JSON and invalid shape both yield `null`. -/
def parseAndValidate (env : CryptoEnv) (payloadRaw : String) : Option Jx :=
  match env.jsonParse payloadRaw with
  | none => none
  | some payload => if isValidFeedPayload payload then some payload else none

/-- The body of `loadRemoteFeed`'s `try` block (feed.mjs:456-501). -/
def loadRemoteFeedTry (env : CryptoEnv) (net : Net) (feedUrl : String)
    (options : RemoteOpts) : Except FeedError (Option Jx) :=
  let signatureUrl := options.signatureUrl.getD (feedUrl ++ ".sig")
  let checksumsUrl := options.checksumsUrl.getD (defaultChecksumsUrl feedUrl)
  let checksumsSignatureUrl := options.checksumsSignatureUrl.getD (checksumsUrl ++ ".sig")
  let publicKeyPem := options.publicKeyPem.getD ""
  let checksumsPublicKeyPem := options.checksumsPublicKeyPem.getD publicKeyPem
  let checksumFeedEntry := options.checksumFeedEntry.getD (safeBasename feedUrl "feed.json")
  let checksumSignatureEntry :=
    options.checksumSignatureEntry.getD (safeBasename signatureUrl "feed.json.sig")
  exBind (fetchText net feedUrl) (fun payloadRawOpt =>
    if ¬ strTruthy payloadRawOpt then .ok none
    else
      let payloadRaw := payloadRawOpt.getD ""
      exBind (remoteVerifyStage env net payloadRaw signatureUrl checksumsUrl
          checksumsSignatureUrl publicKeyPem checksumsPublicKeyPem
          options.allowUnsigned options.verifyChecksumManifest
          checksumFeedEntry checksumSignatureEntry) (fun verified =>
        if verified then .ok (parseAndValidate env payloadRaw) else .ok none))

/-- Translated from `loadRemoteFeed` (feed.mjs:443-511): the outer `catch`
turns a `SecurityPolicyError` into a `null` result (local fallback) and
re-throws every other error. -/
def loadRemoteFeed (env : CryptoEnv) (net : Net) (feedUrl : String)
    (options : RemoteOpts) : Except FeedError (Option Jx) :=
  match loadRemoteFeedTry env net feedUrl options with
  | .error (.policy _) => .ok none
  | r => r

/-- The filesystem as `fs.readFile(..., "utf8")` observes it: `none` models
a thrown read error (missing file). -/
def Fsx : Type := String → Option String

structure LocalOpts where
  signaturePath : Option String := none
  checksumsPath : Option String := none
  checksumsSignaturePath : Option String := none
  publicKeyPem : Option String := none
  checksumsPublicKeyPem : Option String := none
  allowUnsigned : Bool := false
  verifyChecksumManifest : Bool := true
  checksumFeedEntry : Option String := none
  checksumSignatureEntry : Option String := none
  checksumPublicKeyEntry : Option String := none

/-- The signature/checksum stage of `loadLocalFeed` (feed.mjs:391-419),
reached when `allowUnsigned` is off. -/
def localVerifyStage (env : CryptoEnv) (fsx : Fsx) (feedPath payloadRaw : String)
    (signaturePath checksumsPath checksumsSignaturePath publicKeyPem checksumsPublicKeyPem : String)
    (verifyChecksumManifest : Bool)
    (checksumFeedEntry checksumSignatureEntry : Option String)
    (checksumPublicKeyEntry : Option String) : Except String Unit :=
  match fsx signaturePath with
  | none => .error ("ENOENT: no such file: " ++ signaturePath)
  | some signatureRaw =>
    if ¬ env.verifySig payloadRaw signatureRaw publicKeyPem then
      .error ("Feed signature verification failed for local feed: " ++ feedPath)
    else if verifyChecksumManifest then
      match fsx checksumsPath with
      | none => .error ("ENOENT: no such file: " ++ checksumsPath)
      | some checksumsRaw =>
        match fsx checksumsSignaturePath with
        | none => .error ("ENOENT: no such file: " ++ checksumsSignaturePath)
        | some checksumsSignatureRaw =>
          if ¬ env.verifySig checksumsRaw checksumsSignatureRaw checksumsPublicKeyPem then
            .error ("Checksum manifest signature verification failed: " ++ checksumsPath)
          else
            match parseChecksumsManifest env checksumsRaw with
            | .error msg => .error msg
            | .ok checksumsManifest =>
              let feedEntry := checksumFeedEntry.getD (pathBasename feedPath)
              let signatureEntry := checksumSignatureEntry.getD (pathBasename signaturePath)
              let expectedEntries :=
                objSet (objSet [] feedEntry payloadRaw) signatureEntry signatureRaw
              let expectedEntries :=
                if (checksumPublicKeyEntry.getD "") != "" then
                  objSet expectedEntries (checksumPublicKeyEntry.getD "") publicKeyPem
                else expectedEntries
              verifyChecksums env.sha256 checksumsManifest.files expectedEntries
    else .ok ()

/-- The final `JSON.parse` + shape validation of `loadLocalFeed`
(feed.mjs:421-425): parse failures and invalid shapes both throw. -/
def localFinalParse (env : CryptoEnv) (feedPath payloadRaw : String) : Except String Jx :=
  match env.jsonParse payloadRaw with
  | none => .error ("JSON.parse failed for: " ++ feedPath)
  | some payload =>
    if ¬ isValidFeedPayload payload then .error ("Invalid advisory feed format: " ++ feedPath)
    else .ok payload

/-- Translated from `loadLocalFeed` (feed.mjs:380-426); `Except.error`
models a thrown error. -/
def loadLocalFeed (env : CryptoEnv) (fsx : Fsx) (feedPath : String)
    (options : LocalOpts) : Except String Jx :=
  let signaturePath := options.signaturePath.getD (feedPath ++ ".sig")
  let checksumsPath := options.checksumsPath.getD (pathJoin (pathDirname feedPath) "checksums.json")
  let checksumsSignaturePath := options.checksumsSignaturePath.getD (checksumsPath ++ ".sig")
  let publicKeyPem := options.publicKeyPem.getD ""
  let checksumsPublicKeyPem := options.checksumsPublicKeyPem.getD publicKeyPem
  match fsx feedPath with
  | none => .error ("ENOENT: no such file: " ++ feedPath)
  | some payloadRaw =>
    exBind (if options.allowUnsigned then Except.ok () else
        localVerifyStage env fsx feedPath payloadRaw signaturePath checksumsPath
          checksumsSignaturePath publicKeyPem checksumsPublicKeyPem
          options.verifyChecksumManifest options.checksumFeedEntry
          options.checksumSignatureEntry options.checksumPublicKeyEntry)
      (fun _ => localFinalParse env feedPath payloadRaw)

/-! ## `lib/state.ts` -/

structure AdvisoryState where
  schema_version : String
  known_advisories : List String
  last_feed_check : Option String
  last_feed_updated : Option String
  last_hook_scan : Option String
  notified_matches : List (String × String)
deriving DecidableEq

def DEFAULT_STATE : AdvisoryState :=
  ⟨"1.1", [], none, none, none, []⟩

/-- One step of the `notified_matches` normalization loop of
`normalizeState` (state.ts:24-31): keep an entry whose value has a
non-blank trim, with object-assignment semantics. -/
def normNotifiedStep (acc : List (String × String)) (kv : String × String) :
    List (String × String) :=
  if jsTrim kv.2 != "" then objSet acc kv.1 kv.2 else acc

/-- The `notified_matches` normalization loop of `normalizeState`
(state.ts:24-31). -/
def normalizeNotified (entries : List (String × String)) : List (String × String) :=
  entries.foldl normNotifiedStep []

/-- Translated from `normalizeState` (state.ts:15-41) applied to an
`AdvisoryState` value — the shape `persistState` feeds it (all entries are
already strings, so only the blank-trim filters act). -/
def normalizeStateT (raw : AdvisoryState) : AdvisoryState :=
  ⟨"1.1",
    uniqueStrings (raw.known_advisories.filter (fun v => jsTrim v != "")),
    raw.last_feed_check,
    raw.last_feed_updated,
    raw.last_hook_scan,
    normalizeNotified raw.notified_matches⟩

/-- Translated from `persistState` (state.ts:52-73): the JSON written to the
temp file (and atomically renamed over the state file) is the normalized
state. -/
def persistedContent (state : AdvisoryState) : AdvisoryState :=
  normalizeStateT state

/-! ## `lib/matching.ts` and `lib/types.ts` -/

structure Advisory where
  id : Option String := none
  severity : Option String := none
  type : Option String := none
  title : Option String := none
  description : Option String := none
  action : Option String := none
  published : Option String := none
  updated : Option String := none
  affected : Option (List String) := none
deriving DecidableEq

structure InstalledSkill where
  name : String
  dirName : String
  version : Option String
deriving DecidableEq

structure FeedPayload where
  version : String
  updated : Option String := none
  advisories : List Advisory
deriving DecidableEq

structure AdvisoryMatch where
  advisory : Advisory
  skill : InstalledSkill
  matchedAffected : List String
deriving DecidableEq

/-- Translated from `affectedSpecifierMatchesSkill` (matching.ts:50-59). -/
def affectedSpecifierMatchesSkill (rawSpecifier : String) (skill : InstalledSkill) : Bool :=
  match parseAffectedSpecifier rawSpecifier with
  | none => false
  | some parsed =>
    let specName := normalizeSkillName parsed.1
    let skillName := normalizeSkillName skill.name
    if specName != skillName then false
    else versionMatches skill.version parsed.2

/-- Translated from `advisoryMatchesSkill` (matching.ts:61-65). -/
def advisoryMatchesSkill (advisory : Advisory) (skill : InstalledSkill) : List String :=
  let affected := advisory.affected.getD []
  uniqueStrings (affected.filter (fun specifier => affectedSpecifierMatchesSkill specifier skill))

/-- Translated from `findMatches` (matching.ts:67-82). -/
def findMatches (feed : FeedPayload) (installedSkills : List InstalledSkill) :
    List AdvisoryMatch :=
  feed.advisories.foldl
    (fun acc advisory =>
      let affected := advisory.affected.getD []
      if affected.isEmpty then acc
      else
        acc ++ installedSkills.foldl
          (fun inner skill =>
            let matchedAffected := advisoryMatchesSkill advisory skill
            if matchedAffected.isEmpty then inner
            else inner ++ [⟨advisory, skill, matchedAffected⟩]) [])
    []

/-- Translated from `matchKey` (matching.ts:84-91). -/
def matchKey (m : AdvisoryMatch) : String :=
  let normalizedSkillName := normalizeSkillName m.skill.name
  let version := m.skill.version.getD "unknown"
  let advisoryId :=
    match m.advisory.id with
    | some i => i
    | none =>
      (m.advisory.title.getD "untitled") ++ "::" ++
        ((m.advisory.published.orElse (fun _ => m.advisory.updated)).getD "unknown-ts")
  advisoryId ++ "::" ++ normalizedSkillName ++ "@" ++ version

/-- True when `text` contains `word` with a regex `\b` boundary on each side
(a word character is `[A-Za-z0-9_]`). -/
def isWordChar (c : Char) : Bool := c.isAlphanum || c == '_'

def containsWordAux (word : List Char) : List Char → Option Char → Bool
  | [], _ => false
  | c :: rest, prev =>
    (isPre word (c :: rest) &&
      (match prev with
        | none => true
        | some p => ¬ isWordChar p) &&
      (match (c :: rest).drop word.length with
        | [] => true
        | d :: _ => ¬ isWordChar d)) ||
    containsWordAux word rest (some c)

def containsWord (text word : String) : Bool :=
  containsWordAux word.data text.data none

/-- Translated from `looksMalicious` (matching.ts:93-100); the regex
alternation is a word-boundary search for each alternative, with
`exfiltrat(e|ion)` expanded. -/
def looksMalicious (advisory : Advisory) : Bool :=
  let typeStr := jsToLower (advisory.type.getD "")
  let combined := jsToLower
    ((advisory.title.getD "") ++ " " ++ (advisory.description.getD "") ++ " " ++
      (advisory.action.getD ""))
  if typeStr == "malicious_skill" || typeStr == "malicious_plugin" then true
  else
    ["malicious", "exfiltrate", "exfiltration", "backdoor", "trojan",
      "credential theft", "stealer"].any (containsWord combined)

/-- Translated from `looksRemovalRecommended` (matching.ts:102-105). -/
def looksRemovalRecommended (advisory : Advisory) : Bool :=
  let combined := jsToLower
    ((advisory.action.getD "") ++ " " ++ (advisory.title.getD "") ++ " " ++
      (advisory.description.getD ""))
  ["remove", "uninstall", "delete", "disable", "do not use", "quarantine"].any
    (containsWord combined)

def joinWith (sep : String) : List String → String
  | [] => ""
  | [x] => x
  | x :: rest => x ++ sep ++ joinWith sep rest

/-- Translated from `buildAlertMessage` (matching.ts:107-152). -/
def buildAlertMessage (ms : List AdvisoryMatch) (installRoot : String) : String :=
  let headLines := ["CLAWSEC ALERT: advisory feed matches installed skill(s).",
    "Affected skill advisories:"]
  let listed := (ms.take 8).foldl
    (fun acc m =>
      let severity := jsToUpper (m.advisory.severity.getD "unknown")
      let advisoryId := m.advisory.id.getD "unknown-id"
      let version := m.skill.version.getD "unknown"
      let matched := joinWith ", " m.matchedAffected
      let line := "- [" ++ severity ++ "] " ++ advisoryId ++ " -> " ++ m.skill.name ++ "@" ++
        version ++ (if matched != "" then " (matched: " ++ matched ++ ")" else "")
      let acc := acc ++ [line]
      match m.advisory.action with
      | some action => if action != "" then acc ++ ["  Action: " ++ action] else acc
      | none => acc)
    []
  let extra :=
    if ms.length > 8 then
      ["- ... " ++ toString (ms.length - 8) ++ " additional match(es) not shown"]
    else []
  let removalMatches := ms.filter
    (fun entry => looksMalicious entry.advisory || looksRemovalRecommended entry.advisory)
  let tailLines :=
    if removalMatches.length > 0 then
      let impactedSkills := uniqueStrings (removalMatches.map (fun entry => entry.skill.name))
      let impactedDirs := uniqueStrings (removalMatches.map (fun entry => entry.skill.dirName))
      ["",
        "Recommendation: one or more matches indicate potentially malicious or unsafe skills.",
        "Best practice: remove or disable affected skills only after explicit user approval.",
        "Double-confirmation policy: treat the install request as first intent and require an additional explicit confirmation with this advisory context.",
        "Approval needed: ask the user to approve removal of: " ++ joinWith ", " impactedSkills ++ ".",
        "Candidate removal paths:"] ++
        impactedDirs.map (fun dir => "- " ++ pathJoin installRoot dir)
    else
      ["", "Recommendation: review advisories and update/remove affected skills as directed."]
  joinWith "\n" (headLines ++ listed ++ extra ++ tailLines)

/-! ## `handler.ts` -/

structure HookEvent where
  type : Option String := none
  action : Option String := none
  messages : Option (List String) := none
deriving DecidableEq

/-- Translated from `toEventName` (handler.ts:30-35). -/
def toEventName (event : HookEvent) : String :=
  let eventType := jsTrim (event.type.getD "")
  let action := jsTrim (event.action.getD "")
  if eventType == "" || action == "" then ""
  else eventType ++ ":" ++ action

/-- Translated from `shouldHandleEvent` (handler.ts:37-40). -/
def shouldHandleEvent (event : HookEvent) : Bool :=
  let eventName := toEventName event
  eventName == "agent:bootstrap" || eventName == "command:new"

/-- `Date.parse` as an external primitive; `none` models `NaN`. -/
def DateParse : Type := String → Option Int

/-- Translated from `epochMs` (handler.ts:42-46). -/
def epochMs (dateParse : DateParse) (isoTimestamp : Option String) : Int :=
  match isoTimestamp with
  | none => 0
  | some s => if s == "" then 0 else (dateParse s).getD 0

/-- Translated from `scannedRecently` (handler.ts:48-51). -/
def scannedRecently (dateParse : DateParse) (nowMs : Int) (lastScan : Option String)
    (minIntervalSeconds : Int) : Bool :=
  let sinceMs := nowMs - epochMs dateParse lastScan
  decide (0 ≤ sinceMs) && decide (sinceMs < minIntervalSeconds * 1000)

/-- Lookup truthiness of `state.notified_matches[key]` (an absent key is
`undefined`, an empty-string value is falsy). -/
def notifiedTruthy (notified : List (String × String)) (key : String) : Bool :=
  match objGet notified key with
  | some v => v != ""
  | none => false

structure ScanOut where
  state : AdvisoryState
  newMessages : List String
deriving DecidableEq

/-- The timestamp/known-advisories updates of the handler after a
successful feed load (handler.ts:160-171). -/
def scanRecordPhase (feed : FeedPayload) (nowIso : String) (state0 : AdvisoryState) :
    AdvisoryState :=
  let state1 := { state0 with last_hook_scan := some nowIso, last_feed_check := some nowIso }
  let state2 :=
    match feed.updated with
    | some u => if jsTrim u != "" then { state1 with last_feed_updated := some u } else state1
    | none => state1
  let advisoryIds := (feed.advisories.filterMap (fun a => a.id)).filter
    (fun i => jsTrim i != "")
  { state2 with known_advisories := uniqueStrings (state2.known_advisories ++ advisoryIds) }

/-- One iteration of the dedup loop (handler.ts:182-189): a match whose key
is already truthily notified is skipped, otherwise it is collected as unseen
and its key marked with the scan timestamp. -/
def scanFoldStep (nowIso : String) (acc : List AdvisoryMatch × List (String × String))
    (m : AdvisoryMatch) : List AdvisoryMatch × List (String × String) :=
  let key := matchKey m
  if notifiedTruthy acc.2 key then acc
  else (acc.1 ++ [m], objSet acc.2 key nowIso)

/-- The body of the handler after a successful feed load (handler.ts:160-195):
record timestamps, union in advisory ids, compute matches, mark and report
the matches whose dedup key is not yet notified.  `newMessages` is what is
appended to `event.messages` (at most one alert). -/
def scanStep (feed : FeedPayload) (installedSkills : List InstalledSkill)
    (installRoot : String) (nowIso : String) (state0 : AdvisoryState) : ScanOut :=
  let state3 := scanRecordPhase feed nowIso state0
  let foundMatches := findMatches feed installedSkills
  if foundMatches.isEmpty then ⟨state3, []⟩
  else
    let folded := foundMatches.foldl (scanFoldStep nowIso) ([], state3.notified_matches)
    let state4 := { state3 with notified_matches := folded.2 }
    let msgs := if folded.1.length > 0 then [buildAlertMessage folded.1 installRoot] else []
    ⟨state4, msgs⟩

/-- The four ways one handler invocation can end (handler.ts:91-196):
filtered out by the event gate, skipped by the rate limit, returned after a
feed-load failure (nothing persisted, the loaded state untouched), or
completed with `persistState` called on the updated state. -/
inductive HandlerResult where
  | filtered
  | rateLimited
  | loadFailed (warning : String)
  | completed (persisted : AdvisoryState) (newMessages : List String)
deriving DecidableEq

/-- Translated from the handler's control flow (handler.ts:91-196), over the
externally supplied inputs: the loaded state, the outcome of `loadFeed`, the
discovered skills, the clock (`Date.now()` and `new Date().toISOString()`)
and `Date.parse`. -/
def handlerRun (dateParse : DateParse) (nowMs : Int) (nowIso : String)
    (event : HookEvent) (loadedState : AdvisoryState)
    (feedResult : Except String FeedPayload) (installedSkills : List InstalledSkill)
    (installRoot : String) (scanIntervalSeconds : Int) : HandlerResult :=
  if ¬ shouldHandleEvent event then .filtered
  else
    let forceScan := toEventName event == "command:new"
    if ¬ forceScan && scannedRecently dateParse nowMs loadedState.last_hook_scan scanIntervalSeconds then
      .rateLimited
    else
      match feedResult with
      | .error e => .loadFailed ("failed to load advisory feed: " ++ e)
      | .ok feed =>
        let out := scanStep feed installedSkills installRoot nowIso loadedState
        .completed (persistedContent out.state) out.newMessages

/-! ## `scripts/guarded_skill_install.mjs` (Guard Gate) -/

structure GateArgs where
  skill : String
  version : String := ""
  confirmAdvisory : Bool := false
  dryRun : Bool := false
deriving DecidableEq

structure GateMatch where
  advisory : Advisory
  matchedAffected : List String
deriving DecidableEq

/-- Translated from `affectedSpecifierMatches` (guarded_skill_install.mjs). -/
def affectedSpecifierMatches (specifier skillName version : String) : Bool :=
  match parseAffectedSpecifier specifier with
  | none => false
  | some parsed =>
    normalizeSkillName parsed.1 == normalizeSkillName skillName &&
      versionMatches (some version) parsed.2

/-- Translated from `affectedSpecifierMatchesWithoutVersion`. -/
def affectedSpecifierMatchesWithoutVersion (specifier skillName : String) : Bool :=
  match parseAffectedSpecifier specifier with
  | none => false
  | some parsed => normalizeSkillName parsed.1 == normalizeSkillName skillName

/-- Translated from the gate's `findMatches`: with a version, full
specifier matching; without one (empty string is falsy), conservative
name-only matching. -/
def gateFindMatches (feed : FeedPayload) (skillName version : String) : List GateMatch :=
  feed.advisories.foldl
    (fun acc advisory =>
      let affected := advisory.affected.getD []
      if affected.isEmpty then acc
      else
        let matchedAffected := uniqueStrings (affected.filter
          (fun specifier =>
            if version != "" then affectedSpecifierMatches specifier skillName version
            else affectedSpecifierMatchesWithoutVersion specifier skillName))
        if matchedAffected.length > 0 then acc ++ [⟨advisory, matchedAffected⟩]
        else acc)
    []

/-- Translated from `advisoryLooksHighRisk` (guarded_skill_install.mjs). -/
def advisoryLooksHighRisk (advisory : Advisory) : Bool :=
  let typeStr := jsToLower (advisory.type.getD "")
  let severity := jsToLower (advisory.severity.getD "")
  let combined := jsToLower
    ((advisory.title.getD "") ++ " " ++ (advisory.description.getD "") ++ " " ++
      (advisory.action.getD ""))
  if typeStr == "malicious_skill" || typeStr == "malicious_plugin" then true
  else if ["malicious", "exfiltrate", "exfiltration", "backdoor", "trojan", "stealer",
      "credential theft"].any (containsWord combined) then true
  else if ["remove", "uninstall", "disable", "do not use", "quarantine"].any
      (containsWord combined) then true
  else severity == "critical"

/-- How the gate's `main` ends once the feed is loaded and matches are
computed: `exitConfirmRequired` models `process.exit(42)`, `dryRunOk` the
early return after the dry-run notice (process exit 0, installer never
spawned), `install target` the `runInstall` call handing over to the
external install subprocess. -/
inductive GateOutcome where
  | exitConfirmRequired
  | dryRunOk
  | install (target : String)
deriving DecidableEq

/-- The process exit status each outcome produces directly (`install`
propagates the subprocess status instead). -/
def gateExitCode : GateOutcome → Option Nat
  | .exitConfirmRequired => some 42
  | .dryRunOk => some 0
  | .install _ => none

/-- Translated from the decision flow of `main`
(guarded_skill_install.mjs:283-325). -/
def gateMain (args : GateArgs) (feed : FeedPayload) : GateOutcome :=
  let gateMatches := gateFindMatches feed args.skill args.version
  if gateMatches.length > 0 && ¬ args.confirmAdvisory then .exitConfirmRequired
  else if args.dryRun then .dryRunOk
  else .install (if args.version != "" then args.skill ++ "@" ++ args.version else args.skill)

/-! ## Test fixtures and invocation sequences -/

def testAdvisoryC4 : Advisory :=
  { id := some "TEST-001", severity := some "high", affected := some ["ext@1.0.0"] }

def testFeedC4 : FeedPayload :=
  { version := "1.0.0", advisories := [testAdvisoryC4] }

def testCryptoEnv : CryptoEnv := ⟨fun _ _ _ => false, fun _ => "", fun _ => none⟩

def emptyNet : Net := fun _ => none

/-- The state resulting from one full hook invocation that loaded `feed`,
discovered `skills`, scanned at `nowIso` and persisted: `loadState` of the
file `persistState` wrote. -/
def invokeOnce (root : String) (s : AdvisoryState)
    (st : FeedPayload × List InstalledSkill × String) : AdvisoryState :=
  persistedContent (scanStep st.1 st.2.1 root st.2.2 s).state

/-- A sequence of hook invocations starting from state `s`. -/
def runScans (root : String) (s : AdvisoryState)
    (steps : List (FeedPayload × List InstalledSkill × String)) : AdvisoryState :=
  steps.foldl (invokeOnce root) s

/-! ## Claims -/

/-- C3: the spec's `versionMatches` test table holds, and `*` matches every
version string (including `null` and `"unknown"`). -/
theorem C3_versionMatches_table :
    versionMatches (some "1.2.3") "^1.0.0" = true ∧
    versionMatches (some "2.0.0") "^1.0.0" = false ∧
    versionMatches (some "1.2.3") "~1.2.0" = true ∧
    versionMatches (some "1.3.0") "~1.2.0" = false ∧
    versionMatches (some "unknown") "1.2.3" = false ∧
    ∀ v : Option String, versionMatches v "*" = true := by
  refine ⟨by decide, by decide, by decide, by decide, by decide, fun v => rfl⟩

/-- C4: when the gate finds advisory matches, the run without
`--confirm-advisory` ends in `process.exit(42)` (neither 0 nor the generic
error 1), and the run with `--confirm-advisory --dry-run` ends in the
dry-run return (exit 0) without ever reaching `runInstall`. -/
theorem C4_guard_gate_confirmation (args : GateArgs) (feed : FeedPayload)
    (hm : gateFindMatches feed args.skill args.version ≠ []) :
    (args.confirmAdvisory = false →
      gateMain args feed = .exitConfirmRequired ∧
      gateExitCode (gateMain args feed) = some 42) ∧
    (args.confirmAdvisory = true → args.dryRun = true →
      gateMain args feed = .dryRunOk ∧
      gateExitCode (gateMain args feed) = some 0 ∧
      ∀ t, gateMain args feed ≠ .install t) := by
  have hlen : 0 < (gateFindMatches feed args.skill args.version).length :=
    List.length_pos.mpr hm
  constructor
  · intro hconf
    have : gateMain args feed = .exitConfirmRequired := by
      unfold gateMain
      simp [hconf, hlen]
    exact ⟨this, by rw [this]; rfl⟩
  · intro hconf hdry
    have : gateMain args feed = .dryRunOk := by
      unfold gateMain
      simp [hconf, hdry]
    exact ⟨this, by rw [this]; rfl, by intro t; rw [this]; intro h; cases h⟩

theorem C4_witness :
    gateMain ⟨"ext", "1.0.0", false, false⟩ testFeedC4 = .exitConfirmRequired ∧
    gateMain ⟨"ext", "1.0.0", true, true⟩ testFeedC4 = .dryRunOk := by
  refine ⟨((C4_guard_gate_confirmation ⟨"ext", "1.0.0", false, false⟩ testFeedC4 (by decide)).1 rfl).1,
    (((C4_guard_gate_confirmation ⟨"ext", "1.0.0", true, true⟩ testFeedC4 (by decide)).2 rfl rfl)).1⟩

/-- C10: a trimmed, nonempty affected specifier with no `@` past position 0
(a bare or scoped name with no version part) parses to the whole string with
version spec `*`, and `*` matches every installed version (the sentinel
`"unknown"` and `null` included), so such a specifier matches any installed
extension with the same normalized name. -/
theorem C10_bare_specifier_wildcard (s : String) (skill : InstalledSkill)
    (hTrim : jsTrim s = s) (hne : s ≠ "")
    (hat : (lastIdxOf '@' s.data).getD 0 = 0) :
    parseAffectedSpecifier s = some (s, "*") ∧
    versionMatches skill.version "*" = true ∧
    (normalizeSkillName s = normalizeSkillName skill.name →
      affectedSpecifierMatchesSkill s skill = true) := by
  have hbeq : (s == "") = false := by
    simp [beq_eq_false_iff_ne]; exact hne
  have hparse : parseAffectedSpecifier s = some (s, "*") := by
    unfold parseAffectedSpecifier
    simp only [hTrim, hbeq, Bool.false_eq_true, if_false]
    cases h : lastIdxOf '@' s.data with
    | none => rfl
    | some i =>
      have : i = 0 := by simpa [h] using hat
      subst this
      rfl
  have hstar : versionMatches skill.version "*" = true := rfl
  refine ⟨hparse, hstar, fun hname => ?_⟩
  unfold affectedSpecifierMatchesSkill
  rw [hparse]
  simp only []
  have : (normalizeSkillName s != normalizeSkillName skill.name) = false := by
    simp [bne_eq_false_iff_eq]; exact hname
  rw [this]
  simp [hstar]

theorem C10_witness :
    parseAffectedSpecifier "@scope/pkg" = some ("@scope/pkg", "*") ∧
    affectedSpecifierMatchesSkill "@scope/pkg" ⟨"@Scope/Pkg ", "pkg-dir", some "unknown"⟩ = true := by
  have h := C10_bare_specifier_wildcard "@scope/pkg" ⟨"@Scope/Pkg ", "pkg-dir", some "unknown"⟩
    (by decide) (by decide) (by decide)
  exact ⟨h.1, h.2.2 (by decide)⟩

lemma isPre_cons_ex (c : Char) (cs l : List Char) (h : isPre (c :: cs) l = true) :
    ∃ ds, l = c :: ds ∧ isPre cs ds = true := by
  cases l with
  | nil => simp [isPre] at h
  | cons d ds =>
    simp only [isPre, Bool.and_eq_true, beq_iff_eq] at h
    exact ⟨ds, by rw [h.1], h.2⟩

lemma firstComparatorOp_mem (ops : List String) (s op tgt : String)
    (h : firstComparatorOp ops s = some (op, tgt)) :
    ∃ o ∈ ops, isPre o.data s.data = true := by
  induction ops with
  | nil => simp [firstComparatorOp] at h
  | cons o os ih =>
    rw [firstComparatorOp] at h
    split at h
    · rename_i hc
      rw [Bool.and_eq_true] at hc
      exact ⟨o, List.mem_cons_self o os, hc.1⟩
    · obtain ⟨o', ho', hp⟩ := ih h
      exact ⟨o', List.mem_cons_of_mem o ho', hp⟩

lemma comparatorSplit_head (s op tgt : String)
    (h : comparatorSplit s = some (op, tgt)) :
    ∃ rest, s.data = '>' :: rest ∨ s.data = '<' :: rest ∨ s.data = '=' :: rest := by
  obtain ⟨o, ho, hp⟩ := firstComparatorOp_mem comparatorOps s op tgt h
  simp only [comparatorOps, List.mem_cons, List.not_mem_nil, or_false] at ho
  rcases ho with rfl | rfl | rfl | rfl | rfl
  · obtain ⟨ds, hds, _⟩ := isPre_cons_ex '>' ['='] s.data hp
    exact ⟨ds, Or.inl hds⟩
  · obtain ⟨ds, hds, _⟩ := isPre_cons_ex '<' ['='] s.data hp
    exact ⟨ds, Or.inr (Or.inl hds)⟩
  · obtain ⟨ds, hds, _⟩ := isPre_cons_ex '>' [] s.data hp
    exact ⟨ds, Or.inl hds⟩
  · obtain ⟨ds, hds, _⟩ := isPre_cons_ex '<' [] s.data hp
    exact ⟨ds, Or.inr (Or.inl hds)⟩
  · obtain ⟨ds, hds, _⟩ := isPre_cons_ex '=' [] s.data hp
    exact ⟨ds, Or.inr (Or.inr hds)⟩

lemma compareSemver_none (a b : String)
    (h : parseSemver a = none ∨ parseSemver b = none) :
    compareSemver a b = none := by
  rcases h with h | h <;>
    rcases hpa : parseSemver a with _ | va <;>
    rcases hpb : parseSemver b with _ | vb <;>
    simp_all [compareSemver]

lemma comparatorSplit_none_of_head (s : String) (c : Char) (rest : List Char)
    (h : s.data = c :: rest)
    (h1 : ('>' == c) = false) (h2 : ('<' == c) = false) (h3 : ('=' == c) = false) :
    comparatorSplit s = none := by
  obtain ⟨data⟩ := s
  replace h : data = c :: rest := h
  subst h
  simp only [comparatorSplit, comparatorOps, firstComparatorOp]
  simp [isPre, h1, h2, h3]

lemma splitOnChar_ne_nil (c : Char) (l : List Char) : splitOnChar c l ≠ [] := by
  cases l with
  | nil => simp [splitOnChar]
  | cons d rest =>
    rw [splitOnChar]
    by_cases hd : (d == c) = true <;> simp [hd]

lemma any_isNone_append_replicate_some (l : List (Option Int)) (n : Nat) :
    (l ++ List.replicate n (some (0 : Int))).any (·.isNone) = l.any (·.isNone) := by
  induction n with
  | zero => simp
  | succ k ih =>
    rw [List.any_append] at ih ⊢
    simp [List.any_replicate] at ih ⊢

/-- C8 (amended), part 1: `parseSemver` is `none` exactly when one of the
first three dot components of the cleaned version (trimmed, leading `v`
stripped, pre-release suffix dropped) has no `parseInt`-parseable integer
prefix. -/
theorem parseSemver_none_iff (v : String) :
    parseSemver v = none ↔ (semverNormalized v).any (·.isNone) = true := by
  unfold parseSemver
  have hne : semverParts v ≠ [] := splitOnChar_ne_nil _ _
  have hempty : (semverParts v).isEmpty = false := by
    cases hp : semverParts v with
    | nil => exact absurd hp hne
    | cons a b => rfl
  rw [hempty]
  simp only [Bool.false_eq_true, if_false]
  have hpad : (semverPadded v).any (·.isNone) = (semverNormalized v).any (·.isNone) :=
    any_isNone_append_replicate_some _ _
  by_cases hany : (semverNormalized v).any (·.isNone) = true
  · rw [hpad, hany]
    simp [hany]
  · have hany' : (semverNormalized v).any (·.isNone) = false := Bool.eq_false_iff.mpr hany
    rw [hpad, hany']
    simp only [Bool.false_eq_true, if_false]
    have hlen : (semverNormalized v).length ≤ 3 := by
      unfold semverNormalized
      simp [List.length_take]
    have hlen3 : (semverPadded v).length = 3 := by
      unfold semverPadded
      simp only [List.length_append, List.length_replicate]
      omega
    constructor
    · intro hcontra
      exfalso
      rcases hp : semverPadded v with _ | ⟨a, _ | ⟨b, _ | ⟨cc, _ | _⟩⟩⟩ <;>
        rw [hp] at hlen3 hcontra <;> simp_all
    · intro hcontra
      exact hcontra.elim

lemma firstBranch_false_of_head (s : String) (c : Char) (rest : List Char)
    (hd : s.data = c :: rest)
    (hca : (Char.toLower c == 'a') = false) (hcs : (c == '*') = false) :
    (s == "" || s == "*" || jsToLower s == "any") = false := by
  have h0 : (s == "") = false := beq_eq_false_iff_ne.mpr (fun he => by
    rw [he] at hd; exact List.noConfusion hd)
  have h1 : (s == "*") = false := beq_eq_false_iff_ne.mpr (fun he => by
    rw [he] at hd
    have : ('*' : Char) = c := (List.cons.injEq _ _ _ _ ▸ hd).1
    exact beq_eq_false_iff_ne.mp hcs this.symm)
  have h2 : (jsToLower s == "any") = false := beq_eq_false_iff_ne.mpr (fun he => by
    have hdata : (s.data.map Char.toLower) = ['a', 'n', 'y'] := congrArg String.data he
    rw [hd] at hdata
    simp only [List.map_cons] at hdata
    have : Char.toLower c = 'a' := (List.cons.injEq _ _ _ _ ▸ hdata).1
    exact beq_eq_false_iff_ne.mp hca this)
  rw [h0, h1, h2]
  rfl

lemma versionMatches_comparator_unparseable (version spec op tgt : String)
    (hstar : ((jsTrim spec).data.contains '*') = false)
    (hcomp : comparatorSplit (jsTrim spec) = some (op, tgt))
    (hnone : parseSemver ⟨stripLeadingV (trimChars version.data)⟩ = none ∨ parseSemver tgt = none) :
    versionMatches (some version) spec = false := by
  obtain ⟨rest, hc⟩ := comparatorSplit_head _ _ _ hcomp
  have hfirst : (jsTrim spec == "" || jsTrim spec == "*" || jsToLower (jsTrim spec) == "any") = false := by
    rcases hc with hc | hc | hc <;>
      exact firstBranch_false_of_head _ _ _ hc (by decide) (by decide)
  have hcsn : compareSemver ⟨stripLeadingV (trimChars version.data)⟩ tgt = none :=
    compareSemver_none _ _ hnone
  by_cases hu : (version == "" || jsToLower (jsTrim version) == "unknown") = true
  · simp [versionMatches, hfirst, optFalsy]
    simp only [Bool.or_eq_true] at hu
    rcases hu with hu | hu
    · intro h; rw [beq_iff_eq.mp hu] at h; simp at h
    · intro h1 h2; rw [beq_iff_eq.mp hu] at h2; simp at h2
  · simp only [Bool.or_eq_true, not_or] at hu
    simp [versionMatches, hfirst, optFalsy, Bool.eq_false_iff.mpr hu.1,
      Bool.eq_false_iff.mpr hu.2, hstar, hcomp, hcsn]
    intro hmem
    exact absurd hmem (by simpa using hstar)

lemma versionMatches_caret_unparseable (version spec : String) (rest : List Char)
    (hstar : ((jsTrim spec).data.contains '*') = false)
    (hd : (jsTrim spec).data = '^' :: rest)
    (hnone : parseSemver ⟨stripLeadingV (trimChars version.data)⟩ = none ∨
      parseSemver ⟨rest⟩ = none) :
    versionMatches (some version) spec = false := by
  have hfirst := firstBranch_false_of_head _ _ _ hd (by decide) (by decide)
  have hcompn : comparatorSplit (jsTrim spec) = none :=
    comparatorSplit_none_of_head _ _ _ hd (by decide) (by decide) (by decide)
  have hstar' : ¬ '*' ∈ (jsTrim spec).data := by simpa using hstar
  have hstar2 : ¬ '*' ∈ rest := fun hm => hstar' (by rw [hd]; exact List.mem_cons_of_mem _ hm)
  by_cases hu : (version == "" || jsToLower (jsTrim version) == "unknown") = true
  · simp [versionMatches, hfirst, optFalsy]
    simp only [Bool.or_eq_true] at hu
    rcases hu with hu | hu
    · intro h; rw [beq_iff_eq.mp hu] at h; simp at h
    · intro h1 h2; rw [beq_iff_eq.mp hu] at h2; simp at h2
  · simp only [Bool.or_eq_true, not_or] at hu
    rcases hnone with hn | hn
    · rcases hpa : parseSemver (⟨rest⟩ : String) with _ | ta <;>
        simp [versionMatches, hfirst, optFalsy, Bool.eq_false_iff.mpr hu.1,
          Bool.eq_false_iff.mpr hu.2, hcompn, hd, hpa, hn, hstar', hstar2, isPre]
    · rcases hpb : parseSemver (⟨stripLeadingV (trimChars version.data)⟩ : String) with _ | tb <;>
        simp [versionMatches, hfirst, optFalsy, Bool.eq_false_iff.mpr hu.1,
          Bool.eq_false_iff.mpr hu.2, hcompn, hd, hpb, hn, hstar', hstar2, isPre]

lemma versionMatches_tilde_unparseable (version spec : String) (rest : List Char)
    (hstar : ((jsTrim spec).data.contains '*') = false)
    (hd : (jsTrim spec).data = '~' :: rest)
    (hnone : parseSemver ⟨stripLeadingV (trimChars version.data)⟩ = none ∨
      parseSemver ⟨rest⟩ = none) :
    versionMatches (some version) spec = false := by
  have hfirst := firstBranch_false_of_head _ _ _ hd (by decide) (by decide)
  have hcompn : comparatorSplit (jsTrim spec) = none :=
    comparatorSplit_none_of_head _ _ _ hd (by decide) (by decide) (by decide)
  have hstar' : ¬ '*' ∈ (jsTrim spec).data := by simpa using hstar
  have hstar2 : ¬ '*' ∈ rest := fun hm => hstar' (by rw [hd]; exact List.mem_cons_of_mem _ hm)
  by_cases hu : (version == "" || jsToLower (jsTrim version) == "unknown") = true
  · simp [versionMatches, hfirst, optFalsy]
    simp only [Bool.or_eq_true] at hu
    rcases hu with hu | hu
    · intro h; rw [beq_iff_eq.mp hu] at h; simp at h
    · intro h1 h2; rw [beq_iff_eq.mp hu] at h2; simp at h2
  · simp only [Bool.or_eq_true, not_or] at hu
    rcases hnone with hn | hn
    · rcases hpa : parseSemver (⟨rest⟩ : String) with _ | ta <;>
        simp [versionMatches, hfirst, optFalsy, Bool.eq_false_iff.mpr hu.1,
          Bool.eq_false_iff.mpr hu.2, hcompn, hd, hpa, hn, hstar', hstar2, isPre]
    · rcases hpb : parseSemver (⟨stripLeadingV (trimChars version.data)⟩ : String) with _ | tb <;>
        simp [versionMatches, hfirst, optFalsy, Bool.eq_false_iff.mpr hu.1,
          Bool.eq_false_iff.mpr hu.2, hcompn, hd, hpb, hn, hstar', hstar2, isPre]

/-- C8, counterexample: `"1.2.3x"` contains the non-numeric component `"3x"`
(its dot components are `["1","2","3x"]` and `"3x"` is not all digits), yet
`parseSemver` parses it to `(1,2,3)` instead of returning `null`, because
`Number.parseInt("3x", 10)` parses the numeric prefix. -/
theorem C8_counterexample :
    (splitOnChar '.' "1.2.3x".data).map (fun l => (⟨l⟩ : String)) = ["1", "2", "3x"] ∧
    ("3x".data.all Char.isDigit) = false ∧
    parseSemver "1.2.3x" = some (1, 2, 3) := by
  exact ⟨by decide, by decide, by decide⟩

/-- C8, amended: `parseSemver` returns `none` exactly when one of the first
three dot components of the cleaned version string has no parseable integer
prefix (a component with trailing junk after digits, or any component past
the third, does not make the version unparseable); and `versionMatches`
returns false under a comparator, caret or tilde rule whenever the operand
the rule actually parses (the once-normalized installed version, or the
rule's target) is unparseable. -/
theorem C8_unparseable_semantics :
    (∀ v : String, parseSemver v = none ↔ (semverNormalized v).any (·.isNone) = true) ∧
    (∀ version spec op tgt : String, ((jsTrim spec).data.contains '*') = false →
      comparatorSplit (jsTrim spec) = some (op, tgt) →
      (parseSemver ⟨stripLeadingV (trimChars version.data)⟩ = none ∨ parseSemver tgt = none) →
      versionMatches (some version) spec = false) ∧
    (∀ (version spec : String) (rest : List Char), ((jsTrim spec).data.contains '*') = false →
      (jsTrim spec).data = '^' :: rest →
      (parseSemver ⟨stripLeadingV (trimChars version.data)⟩ = none ∨ parseSemver ⟨rest⟩ = none) →
      versionMatches (some version) spec = false) ∧
    (∀ (version spec : String) (rest : List Char), ((jsTrim spec).data.contains '*') = false →
      (jsTrim spec).data = '~' :: rest →
      (parseSemver ⟨stripLeadingV (trimChars version.data)⟩ = none ∨ parseSemver ⟨rest⟩ = none) →
      versionMatches (some version) spec = false) :=
  ⟨parseSemver_none_iff, versionMatches_comparator_unparseable,
    versionMatches_caret_unparseable, versionMatches_tilde_unparseable⟩

/-- C1, counterexample: fetching a feed from a URL that violates the
domain allow-list does NOT propagate a policy error out of
`loadRemoteFeed`; the outer catch (feed.mjs:502-510) converts the
`SecurityPolicyError` into a `null` result. -/
theorem C1_counterexample :
    isAllowedDomain "https://evil.example/feed.json" = false ∧
    loadRemoteFeed testCryptoEnv emptyNet "https://evil.example/feed.json" {} =
      .ok none := by
  exact ⟨by decide, rfl⟩

/-- C1, amended: a policy-violating URL makes the fetch raise a
`SecurityPolicyError` which `fetchText` re-raises (never mapping it to the
`null` used for ordinary network failures), but `loadRemoteFeed`'s outer
catch converts any such error into a `null` result (triggering local
fallback), so no policy error ever propagates to `loadRemoteFeed`'s caller;
only non-policy errors propagate out. -/
theorem C1_policy_conversion :
    (∀ (net : Net) (url : String), isAllowedDomain url = false →
      ∃ msg, fetchText net url = .error (.policy msg)) ∧
    (∀ (env : CryptoEnv) (net : Net) (feedUrl : String) (opts : RemoteOpts) (msg : String),
      loadRemoteFeed env net feedUrl opts ≠ .error (.policy msg)) ∧
    (∀ (env : CryptoEnv) (net : Net) (feedUrl : String) (opts : RemoteOpts),
      isAllowedDomain feedUrl = false → loadRemoteFeed env net feedUrl opts = .ok none) := by
  refine ⟨?_, ?_, ?_⟩
  · intro net url h
    exact ⟨"Security policy violation: URL domain not allowed. Blocked: " ++ url,
      by simp [fetchText, h]⟩
  · intro env net feedUrl opts msg
    unfold loadRemoteFeed
    cases hr : loadRemoteFeedTry env net feedUrl opts with
    | ok v => simp
    | error e => cases e <;> simp
  · intro env net feedUrl opts h
    unfold loadRemoteFeed loadRemoteFeedTry
    simp [fetchText, h, exBind]

lemma validAdvisoryJx_unpack (a : Jx) (h : validAdvisoryJx a = true) :
    jsIsObject a = true ∧
    (∃ i, jget a "id" = some (.str i) ∧ jsTrim i ≠ "") ∧
    (∃ sv, jget a "severity" = some (.str sv) ∧ jsTrim sv ≠ "") ∧
    (∃ af, jget a "affected" = some (.arr af)) := by
  simp only [validAdvisoryJx, Bool.and_eq_true] at h
  obtain ⟨⟨⟨hobj, hid⟩, hsev⟩, haff⟩ := h
  refine ⟨hobj, ?_, ?_, ?_⟩
  · rcases hv : jget a "id" with _ | jx
    · rw [hv] at hid; cases hid
    · cases jx <;> rw [hv] at hid <;> first
        | cases hid
        | exact ⟨_, rfl, by simpa using hid⟩
  · rcases hv : jget a "severity" with _ | jx
    · rw [hv] at hsev; cases hsev
    · cases jx <;> rw [hv] at hsev <;> first
        | cases hsev
        | exact ⟨_, rfl, by simpa using hsev⟩
  · rcases hv : jget a "affected" with _ | jx
    · rw [hv] at haff; cases haff
    · cases jx <;> rw [hv] at haff <;> first
        | cases haff
        | exact ⟨_, rfl⟩

lemma isValidFeedPayload_unpack (j : Jx) (h : isValidFeedPayload j = true) :
    jsIsObject j = true ∧
    (∃ v, jget j "version" = some (.str v) ∧ jsTrim v ≠ "") ∧
    (∃ advisories, jget j "advisories" = some (.arr advisories) ∧
      ∀ a ∈ advisories, validAdvisoryJx a = true) := by
  simp only [isValidFeedPayload, Bool.and_eq_true] at h
  obtain ⟨⟨hobj, hver⟩, hadv⟩ := h
  refine ⟨hobj, ?_, ?_⟩
  · rcases hv : jget j "version" with _ | jx
    · rw [hv] at hver; cases hver
    · cases jx <;> rw [hv] at hver <;> first
        | cases hver
        | exact ⟨_, rfl, by simpa using hver⟩
  · rcases hv : jget j "advisories" with _ | jx
    · rw [hv] at hadv; cases hadv
    · cases jx <;> rw [hv] at hadv <;> first
        | cases hadv
        | exact ⟨_, rfl, by simpa [List.all_eq_true] using hadv⟩

lemma exBind_error_arg {e a b : Type} (msg : e) (k : a → Except e b) :
    exBind (.error msg) k = .error msg := rfl

lemma exBind_ok_arg {e a b : Type} (v : a) (k : a → Except e b) :
    exBind (.ok v) k = k v := rfl

lemma exBind_eq_ok {e a b : Type} (x : Except e a) (k : a → Except e b) (r : b) :
    exBind x k = .ok r ↔ ∃ v, x = .ok v ∧ k v = .ok r := by
  cases x <;> simp [exBind]

lemma localFinalParse_ok_valid (env : CryptoEnv) (feedPath payloadRaw : String) (p : Jx)
    (h : localFinalParse env feedPath payloadRaw = .ok p) :
    isValidFeedPayload p = true := by
  unfold localFinalParse at h
  rcases hj : env.jsonParse payloadRaw with _ | payload <;> simp only [hj] at h
  · exact absurd h (by simp)
  · split at h
    · exact absurd h (by simp)
    · rename_i hvalid
      simp only [Except.ok.injEq] at h
      subst h
      exact Decidable.of_not_not hvalid

lemma loadLocalFeed_ok_valid (env : CryptoEnv) (fsx : Fsx) (feedPath : String)
    (opts : LocalOpts) (p : Jx) (h : loadLocalFeed env fsx feedPath opts = .ok p) :
    isValidFeedPayload p = true := by
  unfold loadLocalFeed at h
  rcases hf : fsx feedPath with _ | payloadRaw <;> rw [hf] at h
  · exact absurd h (by simp)
  · rw [exBind_eq_ok] at h
    obtain ⟨u, _, hk⟩ := h
    exact localFinalParse_ok_valid env feedPath payloadRaw p hk

lemma loadRemoteFeed_ok_some (env : CryptoEnv) (net : Net) (feedUrl : String)
    (opts : RemoteOpts) (p : Jx)
    (h : loadRemoteFeed env net feedUrl opts = .ok (some p)) :
    loadRemoteFeedTry env net feedUrl opts = .ok (some p) := by
  unfold loadRemoteFeed at h
  split at h
  · exact absurd h (by simp)
  · exact h

lemma loadRemoteFeedTry_ok_some_valid (env : CryptoEnv) (net : Net) (feedUrl : String)
    (opts : RemoteOpts) (p : Jx)
    (h : loadRemoteFeedTry env net feedUrl opts = .ok (some p)) :
    isValidFeedPayload p = true := by
  unfold loadRemoteFeedTry at h
  rcases hf : fetchText net feedUrl with e | praw
  · rw [hf] at h
    rw [exBind_error_arg] at h
    exact absurd h (by simp)
  · rw [hf] at h
    rw [exBind_ok_arg] at h
    simp only at h
    split at h
    · exact absurd h (by simp)
    · rw [exBind_eq_ok] at h
      obtain ⟨verified, hst, hk⟩ := h
      cases verified
      · exact absurd hk (by simp)
      · rw [if_pos rfl] at hk
        simp only [Except.ok.injEq] at hk
        unfold parseAndValidate at hk
        rcases hj : env.jsonParse (praw.getD "") with _ | payload <;> simp only [hj] at hk
        · exact absurd hk (by simp)
        · split at hk
          · simp only [Option.some.injEq] at hk
            rw [← hk]
            assumption
          · exact absurd hk (by simp)

/-- C5: both loaders accept only structurally valid payloads: a payload
passing `isValidFeedPayload` is an object whose `version` is a non-blank
string and whose `advisories` is an array of advisories each having a
non-blank string `id`, a non-blank string `severity` and an array-typed
`affected`; and a successful local load (which throws on anything invalid)
or remote load (which returns no result) always returns such a payload,
regardless of how the signature stage went. -/
theorem C5_shape_validation :
    (∀ j : Jx, isValidFeedPayload j = true →
      jsIsObject j = true ∧
      (∃ v, jget j "version" = some (.str v) ∧ jsTrim v ≠ "") ∧
      (∃ advisories, jget j "advisories" = some (.arr advisories) ∧
        ∀ a ∈ advisories,
          jsIsObject a = true ∧
          (∃ i, jget a "id" = some (.str i) ∧ jsTrim i ≠ "") ∧
          (∃ sv, jget a "severity" = some (.str sv) ∧ jsTrim sv ≠ "") ∧
          (∃ af, jget a "affected" = some (.arr af)))) ∧
    (∀ (env : CryptoEnv) (fsx : Fsx) (feedPath : String) (opts : LocalOpts) (p : Jx),
      loadLocalFeed env fsx feedPath opts = .ok p → isValidFeedPayload p = true) ∧
    (∀ (env : CryptoEnv) (net : Net) (feedUrl : String) (opts : RemoteOpts) (p : Jx),
      loadRemoteFeed env net feedUrl opts = .ok (some p) → isValidFeedPayload p = true) := by
  refine ⟨?_, ?_, ?_⟩
  · intro j h
    obtain ⟨hobj, hver, advisories, hadv, hall⟩ := isValidFeedPayload_unpack j h
    refine ⟨hobj, hver, advisories, hadv, fun a ha => validAdvisoryJx_unpack a (hall a ha)⟩
  · exact loadLocalFeed_ok_valid
  · intro env net feedUrl opts p h
    exact loadRemoteFeedTry_ok_some_valid env net feedUrl opts p
      (loadRemoteFeed_ok_some env net feedUrl opts p h)

lemma remoteVerifyStage_skip (env : CryptoEnv) (net : Net)
    (praw su cu csu pk cpk fe se : String) (sigOpt csOpt cssOpt : Option String)
    (hsig : fetchText net su = .ok sigOpt) (hst : strTruthy sigOpt = true)
    (hver : env.verifySig praw (sigOpt.getD "") pk = true)
    (hcs : fetchText net cu = .ok csOpt) (hcss : fetchText net csu = .ok cssOpt)
    (hskip : strTruthy csOpt = false ∨ strTruthy cssOpt = false) :
    remoteVerifyStage env net praw su cu csu pk cpk false true fe se = .ok true := by
  unfold remoteVerifyStage
  rw [hsig]
  simp only [Bool.false_eq_true, if_false, hst, hver, hcs, hcss]
  rcases hskip with hx | hx <;> simp [hx]

lemma remoteVerifyStage_sig_required (env : CryptoEnv) (net : Net)
    (praw su cu csu pk cpk fe se : String) (sigOpt : Option String)
    (hsig : fetchText net su = .ok sigOpt)
    (hfail : strTruthy sigOpt = false ∨ env.verifySig praw (sigOpt.getD "") pk = false) :
    remoteVerifyStage env net praw su cu csu pk cpk false true fe se = .ok false := by
  unfold remoteVerifyStage
  rw [hsig]
  rcases hfail with hx | hx
  · simp [hx]
  · by_cases ht : strTruthy sigOpt = true
    · simp [ht, hx]
    · simp [Bool.eq_false_iff.mpr ht]

lemma remoteVerifyStage_ok_checksums (env : CryptoEnv) (net : Net)
    (praw su cu csu pk cpk fe se : String) (sigOpt csOpt cssOpt : Option String)
    (hsig : fetchText net su = .ok sigOpt)
    (hcs : fetchText net cu = .ok csOpt) (hcss : fetchText net csu = .ok cssOpt)
    (hta : strTruthy csOpt = true) (htb : strTruthy cssOpt = true)
    (h : remoteVerifyStage env net praw su cu csu pk cpk false true fe se = .ok true) :
    strTruthy sigOpt = true ∧ env.verifySig praw (sigOpt.getD "") pk = true ∧
    env.verifySig (csOpt.getD "") (cssOpt.getD "") cpk = true ∧
    ∃ m, parseChecksumsManifest env (csOpt.getD "") = .ok m ∧
      verifyChecksums env.sha256 m.files
        (objSet (objSet [] fe praw) se (sigOpt.getD "")) = .ok () := by
  unfold remoteVerifyStage at h
  rw [hsig] at h
  simp only [Bool.false_eq_true, if_false, hcs, hcss, hta, htb, Bool.and_self, if_true] at h
  by_cases h1 : strTruthy sigOpt = true
  · rw [h1] at h
    simp only [Bool.not_true, Bool.false_eq_true, if_false] at h
    by_cases h2 : env.verifySig praw (sigOpt.getD "") pk = true
    · rw [h2] at h
      simp only [Bool.not_true, Bool.false_eq_true, if_false, if_true] at h
      by_cases h3 : env.verifySig (csOpt.getD "") (cssOpt.getD "") cpk = true
      · rw [h3] at h
        simp only [Bool.not_true, Bool.false_eq_true, if_false] at h
        rcases hm : parseChecksumsManifest env (csOpt.getD "") with msg | m
        · rw [hm] at h
          exact absurd h (by simp)
        · rw [hm] at h
          simp only at h
          rcases hvc : verifyChecksums env.sha256 m.files
              (objSet (objSet [] fe praw) se (sigOpt.getD "")) with msg | u
          · rw [hvc] at h
            exact absurd h (by simp)
          · cases u
            exact ⟨h1, h2, h3, m, rfl, hvc⟩
      · rw [Bool.eq_false_iff.mpr h3] at h
        simp at h
    · rw [Bool.eq_false_iff.mpr h2] at h
      simp at h
  · rw [Bool.eq_false_iff.mpr h1] at h
    simp at h

lemma localVerifyStage_ok (env : CryptoEnv) (fsx : Fsx)
    (feedPath praw sp cp csp pk cpk : String)
    (fe se cpke : Option String) (u : Unit)
    (h : localVerifyStage env fsx feedPath praw sp cp csp pk cpk true fe se cpke = .ok u) :
    ∃ sraw, fsx sp = some sraw ∧ env.verifySig praw sraw pk = true ∧
      ∃ cs, fsx cp = some cs ∧ ∃ sg, fsx csp = some sg ∧
        env.verifySig cs sg cpk = true := by
  unfold localVerifyStage at h
  rcases hs : fsx sp with _ | sraw
  · rw [hs] at h
    exact absurd h (by simp)
  · rw [hs] at h
    simp only at h
    by_cases h1 : env.verifySig praw sraw pk = true
    · rw [h1] at h
      simp only [Bool.not_true, Bool.false_eq_true, if_false, if_true] at h
      rcases hc : fsx cp with _ | cs
      · rw [hc] at h
        exact absurd h (by simp)
      · rw [hc] at h
        simp only at h
        rcases hcs : fsx csp with _ | sg
        · rw [hcs] at h
          exact absurd h (by simp)
        · rw [hcs] at h
          simp only at h
          by_cases h2 : env.verifySig cs sg cpk = true
          · exact ⟨sraw, rfl, h1, cs, rfl, sg, rfl, h2⟩
          · rw [Bool.eq_false_iff.mpr h2] at h
            simp at h
    · rw [Bool.eq_false_iff.mpr h1] at h
      simp at h

/-- C2: remote checksum verification is best-effort — with signatures
required and checksum verification enabled, if the checksum manifest or its
signature fetch comes back empty the load proceeds on the feed signature
alone (the result is exactly the parsed/validated payload); if both are
fetched, a successful load implies the manifest signature verified and
every required digest matched; the feed-signature requirement still applies
when checksums are skipped (a missing or failing feed signature yields no
result); and the local loader never skips — a successful local load implies
the manifest file and its signature file both existed and verified. -/
theorem C2_checksum_verification :
    (∀ (env : CryptoEnv) (net : Net)
        (feedUrl su cu csu pk fe se praw : String) (sigOpt csOpt cssOpt : Option String),
      fetchText net feedUrl = .ok (some praw) → praw ≠ "" →
      fetchText net su = .ok sigOpt → strTruthy sigOpt = true →
      env.verifySig praw (sigOpt.getD "") pk = true →
      fetchText net cu = .ok csOpt → fetchText net csu = .ok cssOpt →
      (strTruthy csOpt = false ∨ strTruthy cssOpt = false) →
      loadRemoteFeed env net feedUrl
          ⟨some su, some cu, some csu, some pk, none, false, true, some fe, some se⟩ =
        .ok (parseAndValidate env praw)) ∧
    (∀ (env : CryptoEnv) (net : Net)
        (feedUrl su cu csu pk fe se praw : String) (sigOpt csOpt cssOpt : Option String) (p : Jx),
      fetchText net feedUrl = .ok (some praw) → praw ≠ "" →
      fetchText net su = .ok sigOpt →
      fetchText net cu = .ok csOpt → fetchText net csu = .ok cssOpt →
      strTruthy csOpt = true → strTruthy cssOpt = true →
      loadRemoteFeed env net feedUrl
          ⟨some su, some cu, some csu, some pk, none, false, true, some fe, some se⟩ =
        .ok (some p) →
      strTruthy sigOpt = true ∧ env.verifySig praw (sigOpt.getD "") pk = true ∧
      env.verifySig (csOpt.getD "") (cssOpt.getD "") pk = true ∧
      ∃ m, parseChecksumsManifest env (csOpt.getD "") = .ok m ∧
        verifyChecksums env.sha256 m.files
          (objSet (objSet [] fe praw) se (sigOpt.getD "")) = .ok ()) ∧
    (∀ (env : CryptoEnv) (net : Net)
        (feedUrl su cu csu pk fe se praw : String) (sigOpt : Option String),
      fetchText net feedUrl = .ok (some praw) → praw ≠ "" →
      fetchText net su = .ok sigOpt →
      (strTruthy sigOpt = false ∨ env.verifySig praw (sigOpt.getD "") pk = false) →
      loadRemoteFeed env net feedUrl
          ⟨some su, some cu, some csu, some pk, none, false, true, some fe, some se⟩ =
        .ok none) ∧
    (∀ (env : CryptoEnv) (fsx : Fsx) (feedPath sp cp csp pk : String)
        (cpke : Option String) (p : Jx),
      loadLocalFeed env fsx feedPath
          ⟨some sp, some cp, some csp, some pk, none, false, true, none, none, cpke⟩ =
        .ok p →
      ∃ praw sraw cs sg, fsx feedPath = some praw ∧ fsx sp = some sraw ∧
        env.verifySig praw sraw pk = true ∧ fsx cp = some cs ∧ fsx csp = some sg ∧
        env.verifySig cs sg pk = true) := by
  refine ⟨?_, ?_, ?_, ?_⟩
  · intro env net feedUrl su cu csu pk fe se praw sigOpt csOpt cssOpt
      hfeed hptr hsig hst hver hcs hcss hskip
    have hstage := remoteVerifyStage_skip env net praw su cu csu pk pk fe se
      sigOpt csOpt cssOpt hsig hst hver hcs hcss hskip
    have htr : strTruthy (some praw) = true := by simp [strTruthy, hptr]
    unfold loadRemoteFeed loadRemoteFeedTry
    simp [hfeed, exBind_ok_arg, htr, hstage]
  · intro env net feedUrl su cu csu pk fe se praw sigOpt csOpt cssOpt p
      hfeed hptr hsig hcs hcss hta htb hres
    have htry := loadRemoteFeed_ok_some env net feedUrl _ p hres
    unfold loadRemoteFeedTry at htry
    have htr : strTruthy (some praw) = true := by simp [strTruthy, hptr]
    simp only [hfeed, exBind_ok_arg, Option.getD_some, Option.getD_none, htr,
      Bool.not_true, Bool.false_eq_true, if_false, not_true, ite_false] at htry
    rw [exBind_eq_ok] at htry
    obtain ⟨verified, hst', hk⟩ := htry
    cases verified
    · exact absurd hk (by simp)
    · exact remoteVerifyStage_ok_checksums env net praw su cu csu pk pk fe se
        sigOpt csOpt cssOpt hsig hcs hcss hta htb hst'
  · intro env net feedUrl su cu csu pk fe se praw sigOpt hfeed hptr hsig hfail
    have hstage := remoteVerifyStage_sig_required env net praw su cu csu pk pk fe se
      sigOpt hsig hfail
    have htr : strTruthy (some praw) = true := by simp [strTruthy, hptr]
    unfold loadRemoteFeed loadRemoteFeedTry
    simp [hfeed, exBind_ok_arg, htr, hstage]
  · intro env fsx feedPath sp cp csp pk cpke p h
    unfold loadLocalFeed at h
    rcases hf : fsx feedPath with _ | praw
    · rw [hf] at h
      exact absurd h (by simp)
    · rw [hf] at h
      rw [exBind_eq_ok] at h
      obtain ⟨u, hstage, _⟩ := h
      simp only [Option.getD_some, Bool.false_eq_true, if_false] at hstage
      obtain ⟨sraw, hs, hv1, cs, hc, sg, hsg, hv2⟩ :=
        localVerifyStage_ok env fsx feedPath praw sp cp csp pk pk none none cpke u hstage
      exact ⟨praw, sraw, cs, sg, rfl, hs, hv1, hc, hsg, hv2⟩

/-- C6: in a hook invocation that passes the event filter and the rate
limit, a feed-load failure ends the run with only a warning — nothing is
persisted and the loaded state is untouched — while a successful load always
ends with `persistState` applied to the updated state, even when the match
engine found nothing. -/
theorem C6_fail_soft_persist (dateParse : DateParse) (nowMs : Int) (nowIso : String)
    (event : HookEvent) (loadedState : AdvisoryState)
    (feedResult : Except String FeedPayload) (installedSkills : List InstalledSkill)
    (installRoot : String) (scanIntervalSeconds : Int)
    (hEvent : shouldHandleEvent event = true)
    (hRate : toEventName event = "command:new" ∨
      scannedRecently dateParse nowMs loadedState.last_hook_scan scanIntervalSeconds = false) :
    handlerRun dateParse nowMs nowIso event loadedState feedResult installedSkills
        installRoot scanIntervalSeconds =
      (match feedResult with
        | .error e => .loadFailed ("failed to load advisory feed: " ++ e)
        | .ok feed =>
          .completed
            (persistedContent (scanStep feed installedSkills installRoot nowIso loadedState).state)
            (scanStep feed installedSkills installRoot nowIso loadedState).newMessages) := by
  unfold handlerRun
  rw [if_neg (by simp [hEvent])]
  rcases hRate with hF | hS
  · rw [if_neg (by simp [hF])]
  · by_cases hF : toEventName event == "command:new"
    · rw [if_neg (by simp [hF])]
    · rw [if_neg (by simp [hS])]

lemma objGet_objSet_self {α : Type} (l : List (String × α)) (k : String) (v : α) :
    objGet (objSet l k v) k = some v := by
  induction l with
  | nil => simp [objSet, objGet]
  | cons kv rest ih =>
    obtain ⟨k', w⟩ := kv
    by_cases hk : k' == k
    · simp [objSet, hk, objGet]
    · simp only [objSet, hk, Bool.false_eq_true, if_false]
      simp [objGet, hk, ih]

lemma objGet_objSet_other {α : Type} (l : List (String × α)) (k k' : String) (v : α)
    (hne : (k' == k) = false) :
    objGet (objSet l k v) k' = objGet l k' := by
  have h2 : (k == k') = false := by
    rw [beq_eq_false_iff_ne] at hne ⊢
    exact fun he => hne he.symm
  induction l with
  | nil => simp [objSet, objGet, h2]
  | cons kv rest ih =>
    obtain ⟨k0, w⟩ := kv
    by_cases hk : (k0 == k) = true
    · have hkeq : k0 = k := beq_iff_eq.mp hk
      subst hkeq
      simp [objSet, hk, objGet, h2]
    · have hkf : (k0 == k) = false := Bool.eq_false_iff.mpr hk
      simp only [objSet, hkf, Bool.false_eq_true, if_false]
      by_cases h0 : (k0 == k') = true
      · simp [objGet, h0]
      · simp [objGet, Bool.eq_false_iff.mpr h0, ih]

lemma objSet_mem {α : Type} (l : List (String × α)) (k : String) (v : α) (p : String × α)
    (hp : p ∈ objSet l k v) : p = (k, v) ∨ p ∈ l := by
  induction l with
  | nil => simp [objSet] at hp; exact Or.inl hp
  | cons kv rest ih =>
    obtain ⟨k0, w⟩ := kv
    by_cases hk : k0 == k
    · simp only [objSet, hk, if_true] at hp
      rcases List.mem_cons.mp hp with h | h
      · exact Or.inl h
      · exact Or.inr (List.mem_cons_of_mem _ h)
    · simp only [objSet, hk, Bool.false_eq_true, if_false] at hp
      rcases List.mem_cons.mp hp with h | h
      · exact Or.inr (h ▸ List.mem_cons_self _ _)
      · rcases ih h with h' | h'
        · exact Or.inl h'
        · exact Or.inr (List.mem_cons_of_mem _ h')

lemma objGet_mem {α : Type} (l : List (String × α)) (k : String) (v : α)
    (h : objGet l k = some v) : (k, v) ∈ l := by
  induction l with
  | nil => simp [objGet] at h
  | cons kv rest ih =>
    obtain ⟨k0, w⟩ := kv
    by_cases hk : k0 == k
    · simp only [objGet, hk, if_true, Option.some.injEq] at h
      rw [beq_iff_eq] at hk
      subst hk
      subst h
      exact List.mem_cons_self _ _
    · simp only [objGet, hk, Bool.false_eq_true, if_false] at h
      exact List.mem_cons_of_mem _ (ih h)

lemma notifiedTruthy_objSet_self (nm : List (String × String)) (k t : String)
    (ht : t ≠ "") : notifiedTruthy (objSet nm k t) k = true := by
  simp [notifiedTruthy, objGet_objSet_self, ht]

lemma scanFoldStep_truthy (t : String) (ht : t ≠ "")
    (acc : List AdvisoryMatch × List (String × String)) (m : AdvisoryMatch) :
    notifiedTruthy (scanFoldStep t acc m).2 (matchKey m) = true := by
  unfold scanFoldStep
  by_cases h : notifiedTruthy acc.2 (matchKey m) = true
  · simp [h]
  · simp [Bool.eq_false_iff.mpr h, notifiedTruthy_objSet_self _ _ _ ht]

lemma scanFoldStep_mono (t : String) (acc : List AdvisoryMatch × List (String × String))
    (m : AdvisoryMatch) (k : String) (hk : notifiedTruthy acc.2 k = true) :
    notifiedTruthy (scanFoldStep t acc m).2 k = true := by
  unfold scanFoldStep
  by_cases h : notifiedTruthy acc.2 (matchKey m) = true
  · simp [h, hk]
  · simp only [Bool.eq_false_iff.mpr h, Bool.false_eq_true, if_false]
    by_cases hkm : (k == matchKey m) = true
    · rw [beq_iff_eq] at hkm
      rw [hkm] at hk
      exact absurd hk h
    · simp only [notifiedTruthy,
        objGet_objSet_other acc.2 (matchKey m) k t (Bool.eq_false_iff.mpr hkm)]
      simpa [notifiedTruthy] using hk

lemma scanFold_mono (t : String) (ms : List AdvisoryMatch)
    (acc : List AdvisoryMatch × List (String × String)) (k : String)
    (hk : notifiedTruthy acc.2 k = true) :
    notifiedTruthy (ms.foldl (scanFoldStep t) acc).2 k = true := by
  induction ms generalizing acc with
  | nil => exact hk
  | cons m rest ih =>
    rw [List.foldl_cons]
    exact ih _ (scanFoldStep_mono t acc m k hk)

lemma scanFold_all (t : String) (ht : t ≠ "") (ms : List AdvisoryMatch)
    (acc : List AdvisoryMatch × List (String × String)) :
    ∀ m ∈ ms, notifiedTruthy (ms.foldl (scanFoldStep t) acc).2 (matchKey m) = true := by
  induction ms generalizing acc with
  | nil => intro m hm; cases hm
  | cons m0 rest ih =>
    intro m hm
    rw [List.foldl_cons]
    rcases List.mem_cons.mp hm with rfl | hm'
    · exact scanFold_mono t rest _ _ (scanFoldStep_truthy t ht acc m)
    · exact ih _ m hm'

lemma scanFold_values (t : String) (ht : jsTrim t ≠ "") (ms : List AdvisoryMatch)
    (acc : List AdvisoryMatch × List (String × String))
    (h : ∀ kv ∈ acc.2, jsTrim kv.2 ≠ "") :
    ∀ kv ∈ (ms.foldl (scanFoldStep t) acc).2, jsTrim kv.2 ≠ "" := by
  induction ms generalizing acc with
  | nil => exact h
  | cons m0 rest ih =>
    rw [List.foldl_cons]
    refine ih _ ?_
    intro kv hkv
    unfold scanFoldStep at hkv
    by_cases hb : notifiedTruthy acc.2 (matchKey m0) = true
    · rw [if_pos hb] at hkv
      exact h kv hkv
    · rw [if_neg (by simp [hb])] at hkv
      simp only at hkv
      rcases objSet_mem acc.2 (matchKey m0) t kv hkv with rfl | hmem
      · exact ht
      · exact h kv hmem

lemma scanFold_skip (t : String) (ms : List AdvisoryMatch)
    (acc1 : List AdvisoryMatch) (nm : List (String × String))
    (h : ∀ m ∈ ms, notifiedTruthy nm (matchKey m) = true) :
    ms.foldl (scanFoldStep t) (acc1, nm) = (acc1, nm) := by
  induction ms with
  | nil => rfl
  | cons m0 rest ih =>
    rw [List.foldl_cons]
    have hstep : scanFoldStep t (acc1, nm) m0 = (acc1, nm) := by
      unfold scanFoldStep
      simp [h m0 (List.mem_cons_self _ _)]
    rw [hstep]
    exact ih (fun m hm => h m (List.mem_cons_of_mem _ hm))

lemma normNotified_aux (k : String) (entries : List (String × String))
    (acc : List (String × String))
    (hall : ∀ kv ∈ entries, jsTrim kv.2 ≠ "")
    (hstart : (∃ w, objGet acc k = some w ∧ jsTrim w ≠ "") ∨
      (∃ v, (k, v) ∈ entries ∧ jsTrim v ≠ "")) :
    ∃ w, objGet (entries.foldl normNotifiedStep acc) k = some w ∧ jsTrim w ≠ "" := by
  induction entries generalizing acc with
  | nil =>
    rcases hstart with h | ⟨v, hv, _⟩
    · exact h
    · cases hv
  | cons kv rest ih =>
    rw [List.foldl_cons]
    have hall' : ∀ p ∈ rest, jsTrim p.2 ≠ "" := fun p hp => hall p (List.mem_cons_of_mem _ hp)
    have hpres : ∀ w, objGet acc k = some w → jsTrim w ≠ "" →
        ∃ w', objGet (normNotifiedStep acc kv) k = some w' ∧ jsTrim w' ≠ "" := by
      intro w hw hwt
      unfold normNotifiedStep
      by_cases hg : (jsTrim kv.2 != "") = true
      · rw [if_pos hg]
        by_cases hk : (k == kv.1) = true
        · rw [beq_iff_eq] at hk
          subst hk
          exact ⟨kv.2, objGet_objSet_self _ _ _, by simpa using hg⟩
        · rw [objGet_objSet_other _ _ _ _ (Bool.eq_false_iff.mpr hk)]
          exact ⟨w, hw, hwt⟩
      · rw [if_neg (by simpa using hg)]
        exact ⟨w, hw, hwt⟩
    rcases hstart with ⟨w, hw, hwt⟩ | ⟨v, hv, hvt⟩
    · exact ih _ hall' (Or.inl (hpres w hw hwt))
    · rcases List.mem_cons.mp hv with heq | hmem
      · have hk1 : kv.1 = k := by rw [← heq]
        have hv2 : kv.2 = v := by rw [← heq]
        refine ih _ hall' (Or.inl ?_)
        unfold normNotifiedStep
        rw [if_pos (by simp [hv2]; exact hvt)]
        rw [hk1, hv2]
        exact ⟨v, objGet_objSet_self _ _ _, hvt⟩
      · exact ih _ hall' (Or.inr ⟨v, hmem, hvt⟩)

lemma normalizeNotified_truthy (nm : List (String × String))
    (hvals : ∀ kv ∈ nm, jsTrim kv.2 ≠ "") (k : String)
    (hk : notifiedTruthy nm k = true) :
    notifiedTruthy (normalizeNotified nm) k = true := by
  unfold notifiedTruthy at hk
  rcases hg : objGet nm k with _ | v
  · rw [hg] at hk; cases hk
  · rw [hg] at hk
    have hmem := objGet_mem nm k v hg
    have hvt : jsTrim v ≠ "" := hvals (k, v) hmem
    obtain ⟨w, hw, hwt⟩ := normNotified_aux k nm [] hvals (Or.inr ⟨v, hmem, hvt⟩)
    unfold notifiedTruthy normalizeNotified
    rw [hw]
    simp
    intro hcontra
    rw [hcontra] at hwt
    exact hwt rfl

lemma normalizeStateT_notified (s : AdvisoryState) :
    (normalizeStateT s).notified_matches = normalizeNotified s.notified_matches := rfl

lemma scanRecordPhase_notified (feed : FeedPayload) (t : String) (s : AdvisoryState) :
    (scanRecordPhase feed t s).notified_matches = s.notified_matches := by
  unfold scanRecordPhase
  rcases hu : feed.updated with _ | u
  · simp
  · by_cases h : (jsTrim u != "") = true <;> simp [h]

lemma scanRecordPhase_known (feed : FeedPayload) (t : String) (s : AdvisoryState) :
    (scanRecordPhase feed t s).known_advisories =
      uniqueStrings (s.known_advisories ++
        (feed.advisories.filterMap (fun a => a.id)).filter (fun i => jsTrim i != "")) := by
  unfold scanRecordPhase
  rcases hu : feed.updated with _ | u
  · simp
  · by_cases h : (jsTrim u != "") = true <;> simp [h]

/-- C7: state-driven idempotence — after one scan has recorded the dedup key
of every match it reported (and the state has gone through the
persist/normalize round trip), a second scan over the identical feed and
installed extensions finds every match already notified and appends zero
new alert messages. -/
theorem C7_second_scan_silent (feed : FeedPayload) (skills : List InstalledSkill)
    (root t1 t2 : String) (s0 : AdvisoryState)
    (hs0 : ∀ kv ∈ s0.notified_matches, jsTrim kv.2 ≠ "")
    (ht1 : jsTrim t1 ≠ "") :
    (scanStep feed skills root t2
      (normalizeStateT (scanStep feed skills root t1 s0).state)).newMessages = [] := by
  have ht1' : t1 ≠ "" := fun he => ht1 (by rw [he]; rfl)
  by_cases hM : (findMatches feed skills).isEmpty = true
  · simp [scanStep, hM]
  · have h1 : (scanStep feed skills root t1 s0).state.notified_matches =
        ((findMatches feed skills).foldl (scanFoldStep t1) ([], s0.notified_matches)).2 := by
      simp [scanStep, hM, scanRecordPhase_notified]
    have hkeys := scanFold_all t1 ht1' (findMatches feed skills) ([], s0.notified_matches)
    have hvals := scanFold_values t1 ht1 (findMatches feed skills) ([], s0.notified_matches) hs0
    have hnorm : ∀ m ∈ findMatches feed skills,
        notifiedTruthy (normalizeNotified
          ((findMatches feed skills).foldl (scanFoldStep t1) ([], s0.notified_matches)).2)
          (matchKey m) = true :=
      fun m hm => normalizeNotified_truthy _ hvals _ (hkeys m hm)
    have hskip := scanFold_skip t2 (findMatches feed skills) []
      (normalizeNotified
        ((findMatches feed skills).foldl (scanFoldStep t1) ([], s0.notified_matches)).2) hnorm
    simp [scanStep, hM, scanRecordPhase_notified, normalizeStateT_notified, hskip]

lemma mem_uniqueFold (l acc : List String) (x : String) :
    x ∈ l.foldl uniqueStep acc ↔ x ∈ acc ∨ x ∈ l := by
  induction l generalizing acc with
  | nil => simp
  | cons v rest ih =>
    rw [List.foldl_cons, ih]
    unfold uniqueStep
    by_cases h : acc.contains v = true
    · have hv : v ∈ acc := List.mem_of_elem_eq_true h
      rw [if_pos h]
      constructor
      · rintro (hx | hx)
        · exact Or.inl hx
        · exact Or.inr (List.mem_cons_of_mem _ hx)
      · rintro (hx | hx)
        · exact Or.inl hx
        · rcases List.mem_cons.mp hx with rfl | hx'
          · exact Or.inl hv
          · exact Or.inr hx'
    · rw [if_neg h]
      constructor
      · rintro (hx | hx)
        · rcases List.mem_append.mp hx with hx' | hx'
          · exact Or.inl hx'
          · simp only [List.mem_singleton] at hx'
            exact Or.inr (hx' ▸ List.mem_cons_self _ _)
        · exact Or.inr (List.mem_cons_of_mem _ hx)
      · rintro (hx | hx)
        · exact Or.inl (List.mem_append.mpr (Or.inl hx))
        · rcases List.mem_cons.mp hx with rfl | hx'
          · exact Or.inl (List.mem_append.mpr (Or.inr (List.mem_singleton.mpr rfl)))
          · exact Or.inr hx'

lemma mem_uniqueStrings (l : List String) (x : String) :
    x ∈ uniqueStrings l ↔ x ∈ l := by
  unfold uniqueStrings
  rw [mem_uniqueFold]
  simp

lemma normalizeStateT_known (s : AdvisoryState) :
    (normalizeStateT s).known_advisories =
      uniqueStrings (s.known_advisories.filter (fun v => jsTrim v != "")) := rfl

lemma scanStep_known (feed : FeedPayload) (skills : List InstalledSkill)
    (root t : String) (s : AdvisoryState) :
    (scanStep feed skills root t s).state.known_advisories =
      (scanRecordPhase feed t s).known_advisories := by
  unfold scanStep
  by_cases h : (findMatches feed skills).isEmpty = true <;> simp [h]

lemma invokeOnce_known (root : String) (s : AdvisoryState)
    (st : FeedPayload × List InstalledSkill × String) :
    ∀ x : String, x ∈ (invokeOnce root s st).known_advisories ↔
      (x ∈ s.known_advisories ∨
        x ∈ (st.1.advisories.filterMap (fun a => a.id)).filter (fun i => jsTrim i != "")) ∧
      jsTrim x ≠ "" := by
  intro x
  unfold invokeOnce persistedContent
  rw [normalizeStateT_known, mem_uniqueStrings, List.mem_filter,
    scanStep_known, scanRecordPhase_known, mem_uniqueStrings, List.mem_append]
  constructor
  · rintro ⟨hm, ht⟩
    exact ⟨hm, by simpa using ht⟩
  · rintro ⟨hm, ht⟩
    exact ⟨hm, by simpa using ht⟩

lemma invokeOnce_known_invariant (root : String) (s : AdvisoryState)
    (st : FeedPayload × List InstalledSkill × String) :
    ∀ x ∈ (invokeOnce root s st).known_advisories, jsTrim x ≠ "" :=
  fun x hx => ((invokeOnce_known root s st x).mp hx).2

lemma invokeOnce_known_superset (root : String) (s : AdvisoryState)
    (st : FeedPayload × List InstalledSkill × String)
    (hinv : ∀ x ∈ s.known_advisories, jsTrim x ≠ "") :
    ∀ x ∈ s.known_advisories, x ∈ (invokeOnce root s st).known_advisories :=
  fun x hx => (invokeOnce_known root s st x).mpr ⟨Or.inl hx, hinv x hx⟩

lemma runScans_known_invariant (root : String) (s : AdvisoryState)
    (steps : List (FeedPayload × List InstalledSkill × String))
    (hinv : ∀ x ∈ s.known_advisories, jsTrim x ≠ "") :
    ∀ x ∈ (runScans root s steps).known_advisories, jsTrim x ≠ "" := by
  induction steps generalizing s with
  | nil => exact hinv
  | cons st rest ih =>
    unfold runScans
    rw [List.foldl_cons]
    exact ih _ (invokeOnce_known_invariant root s st)

/-- C9: `known_advisories` only grows — starting from any loaded
(normalized) state, the set of known advisory ids after any further
invocation in a run (each invocation: scan, union in new ids, persist with
normalization) contains every id present before it; normalization only
deduplicates and drops blank entries, which a persisted state never
contains. -/
theorem C9_known_advisories_monotone (root : String) (raw : AdvisoryState)
    (pre : List (FeedPayload × List InstalledSkill × String))
    (st : FeedPayload × List InstalledSkill × String) (x : String)
    (hx : x ∈ (runScans root (normalizeStateT raw) pre).known_advisories) :
    x ∈ (runScans root (normalizeStateT raw) (pre ++ [st])).known_advisories := by
  have hstart : ∀ y ∈ (normalizeStateT raw).known_advisories, jsTrim y ≠ "" := by
    intro y hy
    rw [normalizeStateT_known, mem_uniqueStrings, List.mem_filter] at hy
    simpa using hy.2
  have hinv := runScans_known_invariant root (normalizeStateT raw) pre hstart
  unfold runScans
  rw [List.foldl_append]
  rw [List.foldl_cons, List.foldl_nil]
  exact invokeOnce_known_superset root _ st hinv x hx

theorem C9_witness :
    "ADV-1" ∈ (runScans "/skills"
      (normalizeStateT ⟨"1.1", ["ADV-1"], none, none, none, []⟩)
      [(testFeedC4, [], "2026-02-08T00:00:00Z")]).known_advisories := by
  exact C9_known_advisories_monotone "/skills" ⟨"1.1", ["ADV-1"], none, none, none, []⟩
    [] (testFeedC4, [], "2026-02-08T00:00:00Z") "ADV-1" (by decide)

theorem C6_witness :
    handlerRun (fun _ => none) 0 "2026-02-08T00:00:00Z" ⟨some "command", some "new", none⟩
      DEFAULT_STATE (.error "boom") [] "/skills" 300 =
      .loadFailed "failed to load advisory feed: boom" := by
  exact C6_fail_soft_persist (fun _ => none) 0 "2026-02-08T00:00:00Z"
    ⟨some "command", some "new", none⟩ DEFAULT_STATE (.error "boom") [] "/skills" 300
    (by decide) (Or.inl (by decide))

theorem C7_witness :
    (scanStep testFeedC4 [⟨"ext", "ext-dir", some "1.0.0"⟩] "/skills" "2026-02-08T01:00:00Z"
      (normalizeStateT (scanStep testFeedC4 [⟨"ext", "ext-dir", some "1.0.0"⟩] "/skills"
        "2026-02-08T00:00:00Z" DEFAULT_STATE).state)).newMessages = [] := by
  exact C7_second_scan_silent testFeedC4 [⟨"ext", "ext-dir", some "1.0.0"⟩] "/skills"
    "2026-02-08T00:00:00Z" "2026-02-08T01:00:00Z" DEFAULT_STATE (by decide) (by decide)
